import Mathlib

/-!
# Verification of the `discord-vc-tracker` cache layer

A shallow embedding of `src/cache/RedisCache.ts` (the networked cache
backend) and, modelled from the specification, of the in-process LRU
backend, together with proofs settling the specification claims.

Conventions of the embedding:
* Time is a `Nat` of milliseconds; the external store keeps, per key, the
  stored string and an absolute expiry timestamp.  A key is live at instant
  `now` iff `now` is strictly below its expiry (Redis `SETEX t` keeps the
  key for exactly `t` seconds).
* Values are the JSON scalars the tracker caches: `null`, booleans,
  integers and strings.  `JSON.stringify` / `JSON.parse` are modelled by
  `jsonStringify` / `jsonParse`, restricted to exact scalar literals
  (compound values, fractional numerals and whitespace padding are outside
  the model).
* A transport failure of the external store during one call is an explicit
  `err : Bool` argument; the `catch` blocks of the source become the
  `if err` branches.
-/

/-- JSON scalar values cached by the tracker. -/
inductive JVal where
  | jnull : JVal
  | jbool : Bool → JVal
  | jnum : Int → JVal
  | jstr : String → JVal
deriving DecidableEq, Repr

/-- Big-endian decimal digit characters of a positive number. -/
def natChars (n : Nat) : List Char :=
  (Nat.digits 10 n).reverse.map Nat.digitChar

/-- Decimal representation of a natural number. -/
def natRepr (n : Nat) : String :=
  if n = 0 then "0" else ⟨natChars n⟩

/-- Decimal representation of an integer, as `JSON.stringify` prints it. -/
def intRepr (i : Int) : String :=
  if i < 0 then "-" ++ natRepr i.natAbs else natRepr i.natAbs

/-- Escaping of one character inside a JSON string literal. -/
def escapeChar (c : Char) : List Char :=
  if c = '"' then ['\\', '"']
  else if c = '\\' then ['\\', '\\']
  else if c = '\n' then ['\\', 'n']
  else if c = '\t' then ['\\', 't']
  else if c = '\r' then ['\\', 'r']
  else [c]

/-- `JSON.stringify` on the scalar universe. -/
def jsonStringify : JVal → String
  | .jnull => "null"
  | .jbool true => "true"
  | .jbool false => "false"
  | .jnum i => intRepr i
  | .jstr s => ⟨'"' :: s.data.foldr (fun c acc => escapeChar c ++ acc) ['"']⟩

/-- Value of an escape character after a backslash in a string literal. -/
def unescapeChar (c : Char) : Option Char :=
  if c = '"' then some '"'
  else if c = '\\' then some '\\'
  else if c = '/' then some '/'
  else if c = 'n' then some '\n'
  else if c = 't' then some '\t'
  else if c = 'r' then some '\r'
  else none

/-- Parses the body of a JSON string literal (after the opening quote),
up to and including the closing quote. -/
def strLitBody : List Char → Option (List Char)
  | [] => none
  | ['"'] => some []
  | '"' :: _ :: _ => none
  | '\\' :: c :: rest =>
    match unescapeChar c with
    | none => none
    | some e => (strLitBody rest).map (e :: ·)
  | c :: rest => (strLitBody rest).map (c :: ·)

/-- Numeric value of a list of decimal digit characters. -/
def parseDigits (cs : List Char) : Nat :=
  cs.foldl (fun a c => a * 10 + (c.toNat - 48)) 0

/-- Whether `cs` is a JSON natural-number literal: nonempty, all digits,
no leading zero (except `0` itself). -/
def isNatLit (cs : List Char) : Bool :=
  !cs.isEmpty && cs.all Char.isDigit && (cs.length == 1 || cs.head? != some '0')

/-- Character-level worker for `jsonParse`, handling string and number
literals. -/
def jsonParseChars : List Char → Option JVal
  | [] => none
  | c :: rest =>
    if c = '"' then (strLitBody rest).map (fun cs => JVal.jstr ⟨cs⟩)
    else if c = '-' then
      if isNatLit rest then some (.jnum (-(parseDigits rest : Int))) else none
    else if isNatLit (c :: rest) then some (.jnum (parseDigits (c :: rest) : Nat))
    else none

/-- `JSON.parse` on the scalar universe: `none` models a thrown
`SyntaxError`. -/
def jsonParse (s : String) : Option JVal :=
  if s = "null" then some .jnull
  else if s = "true" then some (.jbool true)
  else if s = "false" then some (.jbool false)
  else jsonParseChars s.data

/-- `RedisCache.get`'s decoding of a stored string: the parsed JSON value,
or the raw string when parsing fails (`try JSON.parse ... catch return value`). -/
def decodeVal (s : String) : JVal :=
  (jsonParse s).getD (.jstr s)

/-- `RedisCache.set`'s serialization: strings are stored raw, everything
else is stringified (`typeof value === 'string' ? value : JSON.stringify(value)`). -/
def serialize : JVal → String
  | .jstr s => s
  | v => jsonStringify v

/-- A conservative syntactic criterion under which `JSON.parse` is
guaranteed to throw — whatever the full JSON grammar admits elsewhere: the
first character is none of the characters able to begin a JSON value (a
digit, `-`, `"`, `{`, `[`, or leading whitespace) and the string does not
begin with one of the literals `true`, `false`, `null`.  `get` returns
such stored strings raw. -/
def jsonUnparseable (s : String) : Bool :=
  match s.data with
  | [] => false
  | c :: _ =>
    !(c.isDigit || c == '"' || c == '-' || c == '{' || c == '[' ||
      c == ' ' || c == '\t' || c == '\n' || c == '\r') &&
    !("true".data.isPrefixOf s.data || "false".data.isPrefixOf s.data ||
      "null".data.isPrefixOf s.data)

/-! ## Round-trip facts about the scalar codec -/

theorem digitChar_toNat {d : Nat} (hd : d < 10) :
    (Nat.digitChar d).toNat = d + 48 := by
  interval_cases d <;> rfl

theorem isDigit_digitChar {d : Nat} (hd : d < 10) :
    (Nat.digitChar d).isDigit = true := by
  interval_cases d <;> rfl

theorem digitChar_eq_zero_iff {d : Nat} (hd : d < 10) :
    Nat.digitChar d = '0' ↔ d = 0 := by
  interval_cases d <;> simp <;> decide

theorem foldl_parse_digitChars (L : List Nat) (hL : ∀ d ∈ L, d < 10) (a : Nat) :
    (L.reverse.map Nat.digitChar).foldl (fun a c => a * 10 + (c.toNat - 48)) a
      = a * 10 ^ L.length + Nat.ofDigits 10 L := by
  induction L generalizing a with
  | nil => simp [Nat.ofDigits_nil]
  | cons d L ih =>
    have hd : d < 10 := hL d (List.mem_cons_self d L)
    have hL' : ∀ x ∈ L, x < 10 := fun x hx => hL x (List.mem_cons_of_mem d hx)
    simp only [List.reverse_cons, List.map_append, List.map_cons, List.map_nil,
      List.foldl_append, List.foldl_cons, List.foldl_nil, ih hL',
      Nat.ofDigits_cons, List.length_cons, digitChar_toNat hd]
    push_cast
    ring

theorem parseDigits_natChars (n : Nat) : parseDigits (natChars n) = n := by
  have h := foldl_parse_digitChars (Nat.digits 10 n)
    (fun d hd => Nat.digits_lt_base (by norm_num) hd) 0
  simpa [parseDigits, natChars, Nat.ofDigits_digits] using h

theorem natChars_all_digit (n : Nat) : (natChars n).all Char.isDigit = true := by
  simp only [natChars, List.all_eq_true, List.mem_map, List.mem_reverse]
  rintro c ⟨d, hd, rfl⟩
  exact isDigit_digitChar (Nat.digits_lt_base (by norm_num) hd)

theorem natChars_ne_nil {n : Nat} (hn : n ≠ 0) : natChars n ≠ [] := by
  simp only [natChars, ne_eq, List.map_eq_nil_iff, List.reverse_eq_nil_iff]
  exact Nat.digits_ne_nil_iff_ne_zero.mpr hn

theorem natChars_head_ne_zero {n : Nat} (hn : n ≠ 0) :
    (natChars n).head? ≠ some '0' := by
  have hne : Nat.digits 10 n ≠ [] := Nat.digits_ne_nil_iff_ne_zero.mpr hn
  have hrev : (Nat.digits 10 n).reverse ≠ [] := by simpa using hne
  obtain ⟨d, L, hdl⟩ := List.exists_cons_of_ne_nil hrev
  have hdmem : d ∈ Nat.digits 10 n := by
    have : d ∈ (Nat.digits 10 n).reverse := hdl ▸ List.mem_cons_self d L
    simpa using this
  have hd10 : d < 10 := Nat.digits_lt_base (by norm_num) hdmem
  have hdlast : d = (Nat.digits 10 n).getLast hne := by
    have := congrArg List.head? hdl
    rw [List.head?_reverse] at this
    have h2 := List.getLast?_eq_getLast (Nat.digits 10 n) hne
    rw [h2] at this
    exact (Option.some_inj.mp this).symm
  have hdne : d ≠ 0 := hdlast ▸ Nat.getLast_digit_ne_zero 10 hn
  simp only [natChars, hdl, List.map_cons, List.head?_cons, ne_eq, Option.some_inj]
  exact fun hc => hdne ((digitChar_eq_zero_iff hd10).mp hc)

theorem isNatLit_natChars {n : Nat} (hn : n ≠ 0) :
    isNatLit (natChars n) = true := by
  simp only [isNatLit, Bool.and_eq_true, Bool.or_eq_true]
  refine ⟨⟨?_, natChars_all_digit n⟩, Or.inr ?_⟩
  · simpa [List.isEmpty_iff] using natChars_ne_nil hn
  · simpa using natChars_head_ne_zero hn

theorem natChars_head_isDigit {n : Nat} (hn : n ≠ 0) :
    ∃ c cs, natChars n = c :: cs ∧ c.isDigit = true := by
  obtain ⟨c, cs, hc⟩ := List.exists_cons_of_ne_nil (natChars_ne_nil hn)
  refine ⟨c, cs, hc, ?_⟩
  have := natChars_all_digit n
  rw [hc] at this
  simp only [List.all_cons, Bool.and_eq_true] at this
  exact this.1

theorem ne_of_data_ne {s t : String} (h : s.data ≠ t.data) : s ≠ t :=
  fun he => h (congrArg String.data he)

theorem digit_head_facts {c : Char} {cs : List Char} (hdig : c.isDigit = true) :
    (⟨c :: cs⟩ : String) ≠ "null" ∧ (⟨c :: cs⟩ : String) ≠ "true" ∧
      (⟨c :: cs⟩ : String) ≠ "false" ∧ c ≠ '"' ∧ c ≠ '-' := by
  refine ⟨?_, ?_, ?_, ?_, ?_⟩
  · intro he
    have h2 : c :: cs = ['n', 'u', 'l', 'l'] := congrArg String.data he
    simp only [List.cons.injEq] at h2
    rw [h2.1] at hdig; exact absurd hdig (by decide)
  · intro he
    have h2 : c :: cs = ['t', 'r', 'u', 'e'] := congrArg String.data he
    simp only [List.cons.injEq] at h2
    rw [h2.1] at hdig; exact absurd hdig (by decide)
  · intro he
    have h2 : c :: cs = ['f', 'a', 'l', 's', 'e'] := congrArg String.data he
    simp only [List.cons.injEq] at h2
    rw [h2.1] at hdig; exact absurd hdig (by decide)
  · intro he; rw [he] at hdig; exact absurd hdig (by decide)
  · intro he; rw [he] at hdig; exact absurd hdig (by decide)

theorem jsonParse_natRepr (n : Nat) :
    jsonParse (natRepr n) = some (.jnum (n : Int)) := by
  by_cases hn : n = 0
  · subst hn; decide
  · obtain ⟨c, cs, hcons, hdig⟩ := natChars_head_isDigit hn
    obtain ⟨h1, h2, h3, hq, hm⟩ := @digit_head_facts c cs hdig
    have hs : natRepr n = ⟨c :: cs⟩ := by rw [natRepr, if_neg hn, hcons]
    rw [hs, jsonParse, if_neg h1, if_neg h2, if_neg h3]
    have hdata : (⟨c :: cs⟩ : String).data = c :: cs := rfl
    rw [hdata, jsonParseChars, if_neg hq, if_neg hm, ← hcons,
      if_pos (isNatLit_natChars hn), parseDigits_natChars]

theorem jsonParse_intRepr (i : Int) :
    jsonParse (intRepr i) = some (.jnum i) := by
  by_cases hi : i < 0
  · have habs : i.natAbs ≠ 0 := by omega
    have hdata : ("-" ++ natRepr i.natAbs).data = '-' :: natChars i.natAbs := by
      rw [String.data_append, natRepr, if_neg habs]
      rfl
    have h1 : ("-" ++ natRepr i.natAbs) ≠ "null" := by
      apply ne_of_data_ne; rw [hdata]; intro h
      exact absurd (List.cons.injEq .. ▸ h).1 (by decide)
    have h2 : ("-" ++ natRepr i.natAbs) ≠ "true" := by
      apply ne_of_data_ne; rw [hdata]; intro h
      exact absurd (List.cons.injEq .. ▸ h).1 (by decide)
    have h3 : ("-" ++ natRepr i.natAbs) ≠ "false" := by
      apply ne_of_data_ne; rw [hdata]; intro h
      exact absurd (List.cons.injEq .. ▸ h).1 (by decide)
    rw [intRepr, if_pos hi, jsonParse, if_neg h1, if_neg h2, if_neg h3, hdata,
      jsonParseChars, if_neg (by decide), if_pos rfl,
      if_pos (isNatLit_natChars habs), parseDigits_natChars]
    congr 1
    congr 1
    omega
  · have : intRepr i = natRepr i.natAbs := by rw [intRepr, if_neg hi]
    rw [this, jsonParse_natRepr]
    congr 2
    omega

theorem decodeVal_serialize_of_ne_str (v : JVal) (h : ∀ s, v ≠ JVal.jstr s) :
    decodeVal (serialize v) = v := by
  cases v with
  | jnull => decide
  | jbool b => cases b <;> decide
  | jnum i => simp only [serialize, jsonStringify, decodeVal, jsonParse_intRepr i, Option.getD_some]
  | jstr s => exact absurd rfl (h s)

theorem decodeVal_serialize_str {s : String} (hne : jsonParse s = none) :
    decodeVal (serialize (JVal.jstr s)) = JVal.jstr s := by
  simp only [serialize, decodeVal, hne, Option.getD_none]

/-! ## The external store and the networked backend state

`RedisStore` models the external Redis instance as an association list from
full (prefixed) keys to the stored string and its absolute expiry (ms).
`RedisCache` bundles the backend's configuration, its local statistics, and
the store it talks to. -/

/-- The external Redis store: per key, the stored string and its absolute
expiry timestamp in milliseconds. -/
structure RedisStore where
  entries : List (String × String × Nat)
deriving DecidableEq, Repr

/-- Redis `GET`: the stored string, if the key exists and is not expired. -/
def redisGet (st : RedisStore) (now : Nat) (k : String) : Option String :=
  match st.entries.find? (fun e => e.1 == k) with
  | none => none
  | some (_, v, exp) => if now < exp then some v else none

/-- Redis `SETEX` effect on the store: replace any binding of `k` with the
new value and absolute expiry. -/
def storePut (st : RedisStore) (k v : String) (exp : Nat) : RedisStore :=
  ⟨(k, v, exp) :: st.entries.filter (fun e => e.1 != k)⟩

/-- Redis `DEL` effect on the store. -/
def storeDel (st : RedisStore) (k : String) : RedisStore :=
  ⟨st.entries.filter (fun e => e.1 != k)⟩

/-- Items of a Redis glob character class, up to the closing `]` (an
unterminated class extends to the end of the pattern, as in Redis):
`\\x` stands for the literal `x`, `a-b` is a range (swapped when
`a > b`), any other character stands for itself.  Returns the items and
the rest of the pattern after the class. -/
def classItems : List Char → List (Char × Char) × List Char
  | [] => ([], [])
  | ']' :: rest => ([], rest)
  | '\\' :: c :: rest =>
    let ir := classItems rest
    ((c, c) :: ir.1, ir.2)
  | a :: '-' :: b :: rest =>
    let ir := classItems rest
    ((if a ≤ b then (a, b) else (b, a)) :: ir.1, ir.2)
  | c :: rest =>
    let ir := classItems rest
    ((c, c) :: ir.1, ir.2)

/-- Whether a character is accepted by a (possibly negated) class. -/
def classMatch (neg : Bool) (items : List (Char × Char)) (c : Char) : Bool :=
  let m := items.any (fun i => decide (i.1 ≤ c) && decide (c ≤ i.2))
  if neg then !m else m

/-- Redis glob matching (`stringmatchlen`): `*` matches any sequence, `?`
any single character, `[...]` a character class (negated by a leading `^`),
`\\x` the literal `x` (a trailing backslash stands for itself), and any
other character itself.  `fuel` bounds the recursion; it is structural so
the matcher evaluates in the kernel, and `pattern length + subject length`
steps always suffice. -/
def globMatchAux : Nat → List Char → List Char → Bool
  | 0, _, _ => false
  | _ + 1, [], s => s.isEmpty
  | fuel + 1, c :: pr, s =>
    if c = '*' then
      globMatchAux fuel pr s ||
        (match s with
         | [] => false
         | _ :: s2 => globMatchAux fuel (c :: pr) s2)
    else if c = '?' then
      (match s with
       | [] => false
       | _ :: s2 => globMatchAux fuel pr s2)
    else if c = '[' then
      (match s with
       | [] => false
       | c2 :: s2 =>
         match pr with
         | '^' :: r =>
           classMatch true (classItems r).1 c2 && globMatchAux fuel (classItems r).2 s2
         | _ =>
           classMatch false (classItems pr).1 c2 && globMatchAux fuel (classItems pr).2 s2)
    else if c = '\\' then
      (match pr, s with
       | e :: pr2, c2 :: s2 => e == c2 && globMatchAux fuel pr2 s2
       | _ :: _, [] => false
       | [], c2 :: s2 => c == c2 && globMatchAux fuel pr s2
       | [], [] => false)
    else
      (match s with
       | [] => false
       | c2 :: s2 => c == c2 && globMatchAux fuel pr s2)

/-- Redis glob matching with sufficient fuel. -/
def globMatch (pat s : List Char) : Bool :=
  globMatchAux (pat.length + s.length + 2) pat s

/-- Number of live keys of the store matching the `SCAN` pattern
`` `${keyPrefix}*` `` of `updateSize`.  The prefix is spliced into the glob
unescaped, exactly as the source does, so metacharacters in it keep their
glob meaning. -/
def countMatching (p : String) (st : RedisStore) (now : Nat) : Nat :=
  (st.entries.filter
    (fun e => globMatch (p.data ++ ['*']) e.1.data && decide (now < e.2.2))).length

/-- Number of live keys whose key literally starts with `p` — the count
the spec attributes to `getStats().size`. -/
def countPref (p : String) (st : RedisStore) (now : Nat) : Nat :=
  (st.entries.filter (fun e => p.data.isPrefixOf e.1.data && decide (now < e.2.2))).length

/-- `CacheConfig` after the constructor filled the defaults
(`Required<CacheConfig>`), plus the Redis options. -/
structure CacheConfig where
  ttl : Nat
  maxSize : Nat
  enableStats : Bool
  keyPrefix : String
deriving DecidableEq, Repr

/-- The `CacheStats` record.  `hitRate` is kept as an exact rational. -/
structure CacheStats where
  hits : Nat
  misses : Nat
  sets : Nat
  deletes : Nat
  size : Nat
  hitRate : ℚ
deriving DecidableEq, Repr

/-- The networked backend: configuration, local statistics, and the external
store it is connected to. -/
structure RedisCache where
  config : CacheConfig
  stats : CacheStats
  store : RedisStore
deriving DecidableEq, Repr

/-- The constructor's defaulting of options: `ttl || 300000`,
`maxSize || 0`, `enableStats !== false`, `keyPrefix || 'dvt:'`. -/
def mkConfig (ttl maxSize : Option Nat) (enableStats : Option Bool)
    (keyPrefix : Option String) : CacheConfig :=
  { ttl := match ttl with | some t => if t = 0 then 300000 else t | none => 300000
    maxSize := match maxSize with | some m => m | none => 0
    enableStats := enableStats != some false
    keyPrefix := match keyPrefix with
      | some p => if p = "" then "dvt:" else p
      | none => "dvt:" }

/-- A freshly constructed backend attached to a store: all counters start
at zero. -/
def mkRedisCache (cfg : CacheConfig) (st : RedisStore) : RedisCache :=
  { config := cfg
    stats := { hits := 0, misses := 0, sets := 0, deletes := 0, size := 0, hitRate := 0 }
    store := st }

namespace RedisCache

/-- `getKey`: the full store key is the configured prefix concatenated with
the caller's key. -/
def getKey (c : RedisCache) (key : String) : String :=
  c.config.keyPrefix ++ key

/-- `updateHitRate`: `hitRate = total > 0 ? hits / total : 0`. -/
def updateHitRate (s : CacheStats) : CacheStats :=
  let total := s.hits + s.misses
  { s with hitRate := if 0 < total then (s.hits : ℚ) / (total : ℚ) else 0 }

/-- Stats bookkeeping of a miss in `get` (also used by its `catch` path). -/
def recordMiss (c : RedisCache) : RedisCache :=
  if c.config.enableStats then
    { c with stats := updateHitRate { c.stats with misses := c.stats.misses + 1 } }
  else c

/-- Stats bookkeeping of a hit in `get`. -/
def recordHit (c : RedisCache) : RedisCache :=
  if c.config.enableStats then
    { c with stats := updateHitRate { c.stats with hits := c.stats.hits + 1 } }
  else c

/-- The effective TTL in milliseconds: `ttl || this.config.ttl`. -/
def effTtl (c : RedisCache) (ttl : Option Nat) : Nat :=
  match ttl with
  | some t => if t = 0 then c.config.ttl else t
  | none => c.config.ttl

/-- `RedisCache.get`.  Returns the decoded value (or `none`) and the updated
backend state.  `err` is a transport failure during this call; the source's
`catch` block returns `null` after counting a miss. -/
def get (c : RedisCache) (now : Nat) (err : Bool) (key : String) :
    Option JVal × RedisCache :=
  if err then (none, c.recordMiss)
  else
    match redisGet c.store now (c.getKey key) with
    | none => (none, c.recordMiss)
    | some s =>
      if s = "" then (none, c.recordMiss)
      else (some (decodeVal s), c.recordHit)

/-- `RedisCache.set`.  `ttlSeconds = Math.floor((ttl || config.ttl)/1000)`;
`SETEX` with a zero expire time is a Redis error, which the `catch`
swallows, so the call degrades to a no-op. -/
def set (c : RedisCache) (now : Nat) (err : Bool) (key : String) (v : JVal)
    (ttl : Option Nat) : RedisCache :=
  if err then c
  else
    let ttlSeconds := c.effTtl ttl / 1000
    if ttlSeconds = 0 then c
    else
      let c' := { c with
        store := storePut c.store (c.getKey key) (serialize v) (now + 1000 * ttlSeconds) }
      if c.config.enableStats then
        { c' with stats := { c'.stats with sets := c'.stats.sets + 1 } }
      else c'

/-- `RedisCache.delete`. -/
def delete (c : RedisCache) (now : Nat) (err : Bool) (key : String) : RedisCache :=
  if err then c
  else
    let c' := { c with store := storeDel c.store (c.getKey key) }
    if c.config.enableStats then
      { c' with stats := { c'.stats with deletes := c'.stats.deletes + 1 } }
    else c'

/-- `RedisCache.clear`: manual clearing is disabled; only `stats.size` is
reset, the store is untouched. -/
def clear (c : RedisCache) : RedisCache :=
  if c.config.enableStats then
    { c with stats := { c.stats with size := 0 } }
  else c

/-- `RedisCache.has`: `EXISTS` on the full key; `false` on a transport
error. -/
def has (c : RedisCache) (now : Nat) (err : Bool) (key : String) : Bool :=
  if err then false
  else (redisGet c.store now (c.getKey key)).isSome

/-- `RedisCache.mget`: `MGET` on the full keys, each reply decoded like
`get` decodes, with no stats bookkeeping; a transport error yields `null`
for every requested key. -/
def mget (c : RedisCache) (now : Nat) (err : Bool) (keys : List String) :
    List (Option JVal) × RedisCache :=
  if err then (keys.map (fun _ => none), c)
  else
    (keys.map (fun k =>
      match redisGet c.store now (c.getKey k) with
      | none => none
      | some s => if s = "" then none else some (decodeVal s)), c)

/-- `RedisCache.mset`: a pipeline of `SETEX`, then `sets += entries.length`;
a transport error (or a zero expire time failing every queued `SETEX`)
degrades to a no-op. -/
def mset (c : RedisCache) (now : Nat) (err : Bool)
    (entries : List (String × JVal)) (ttl : Option Nat) : RedisCache :=
  if err then c
  else
    let ttlSeconds := c.effTtl ttl / 1000
    if ttlSeconds = 0 then c
    else
      let st := entries.foldl
        (fun st e => storePut st (c.getKey e.1) (serialize e.2) (now + 1000 * ttlSeconds))
        c.store
      let c' := { c with store := st }
      if c.config.enableStats then
        { c' with stats := { c'.stats with sets := c'.stats.sets + entries.length } }
      else c'

/-- `updateSize`: recount the live keys under the namespace with a `SCAN`
loop; a transport error leaves `size` unchanged. -/
def updateSize (c : RedisCache) (now : Nat) (err : Bool) : RedisCache :=
  if err then c
  else { c with stats := { c.stats with size := countMatching c.config.keyPrefix c.store now } }

/-- `RedisCache.getStats`: refresh `size` (when stats are enabled), then
return a snapshot of the counters. -/
def getStats (c : RedisCache) (now : Nat) (err : Bool) : CacheStats × RedisCache :=
  let c' := if c.config.enableStats then c.updateSize now err else c
  (c'.stats, c')

end RedisCache

/-! ## Store-level lemmas -/

theorem find?_filter_ne (l : List (String × String × Nat)) {k k' : String}
    (hne : k' ≠ k) :
    (l.filter (fun e => e.1 != k)).find? (fun e => e.1 == k')
      = l.find? (fun e => e.1 == k') := by
  induction l with
  | nil => rfl
  | cons e es ih =>
    by_cases hek : e.1 = k
    · have h1 : (e.1 != k) = false := by simp [hek]
      have h2 : (e.1 == k') = false := by simp [hek]; exact fun h => hne h.symm
      simp [List.filter_cons, h1, List.find?_cons, h2, ih]
    · have h1 : (e.1 != k) = true := by simp [hek]
      cases hpk : (e.1 == k') with
      | true => simp [List.filter_cons, h1, List.find?_cons, hpk]
      | false => simp [List.filter_cons, h1, List.find?_cons, hpk, ih]

theorem redisGet_storePut_self (st : RedisStore) (now : Nat) (k v : String)
    (exp : Nat) :
    redisGet (storePut st k v exp) now k = if now < exp then some v else none := by
  unfold redisGet storePut
  rw [List.find?_cons_of_pos _ (by simp)]

theorem redisGet_storePut_other (st : RedisStore) (now : Nat) {k k' : String}
    (v : String) (exp : Nat) (hne : k' ≠ k) :
    redisGet (storePut st k v exp) now k' = redisGet st now k' := by
  unfold redisGet storePut
  rw [List.find?_cons_of_neg _ (by simpa using Ne.symm hne), find?_filter_ne _ hne]

theorem redisGet_storeDel_self (st : RedisStore) (now : Nat) (k : String) :
    redisGet (storeDel st k) now k = none := by
  unfold redisGet storeDel
  rw [List.find?_eq_none.mpr]
  intro e he
  have := List.of_mem_filter he
  simpa using this

theorem redisGet_storeDel_other (st : RedisStore) (now : Nat) {k k' : String}
    (hne : k' ≠ k) :
    redisGet (storeDel st k) now k' = redisGet st now k' := by
  unfold redisGet storeDel
  rw [find?_filter_ne _ hne]

/-! ## Structural lemmas about the backend operations -/

theorem RedisCache.recordMiss_store (c : RedisCache) : c.recordMiss.store = c.store := by
  unfold RedisCache.recordMiss; split <;> rfl

theorem RedisCache.recordHit_store (c : RedisCache) : c.recordHit.store = c.store := by
  unfold RedisCache.recordHit; split <;> rfl

theorem RedisCache.set_config (c : RedisCache) (now : Nat) (err : Bool) (key : String)
    (v : JVal) (ttl : Option Nat) : (c.set now err key v ttl).config = c.config := by
  simp only [RedisCache.set]
  split
  · rfl
  · split
    · rfl
    · split <;> rfl

theorem RedisCache.set_store (c : RedisCache) (now : Nat) (key : String) (v : JVal)
    (ttl : Option Nat) (hsec : c.effTtl ttl / 1000 ≠ 0) :
    (c.set now false key v ttl).store
      = storePut c.store (c.getKey key) (serialize v)
          (now + 1000 * (c.effTtl ttl / 1000)) := by
  simp only [RedisCache.set, Bool.false_eq_true, if_false, if_neg hsec]
  split <;> rfl

theorem RedisCache.get_fst (c : RedisCache) (now : Nat) (key : String) :
    (c.get now false key).1 =
      match redisGet c.store now (c.getKey key) with
      | none => none
      | some s => if s = "" then none else some (decodeVal s) := by
  unfold RedisCache.get
  cases h : redisGet c.store now (c.getKey key) with
  | none => simp [h]
  | some s => by_cases hs : s = "" <;> simp [h, hs]

theorem RedisCache.clear_store (c : RedisCache) : c.clear.store = c.store := by
  unfold RedisCache.clear; split <;> rfl

theorem RedisCache.clear_config (c : RedisCache) : c.clear.config = c.config := by
  unfold RedisCache.clear; split <;> rfl

/-- Shared: a `set` that stores (no error, nonzero expire) followed by a
`get` before the stored expiry returns the serialize/decode image of the
value. -/
theorem get_after_set (c : RedisCache) (key : String) (v : JVal) (ttl : Option Nat)
    (now τ : Nat) (httl : 1000 ≤ c.effTtl ttl)
    (hτ : τ < now + 1000 * (c.effTtl ttl / 1000)) (hne : serialize v ≠ "") :
    ((c.set now false key v ttl).get τ false key).1 = some (decodeVal (serialize v)) := by
  have hsec : c.effTtl ttl / 1000 ≠ 0 := by omega
  rw [RedisCache.get_fst]
  have hkey : (c.set now false key v ttl).getKey key = c.getKey key := by
    unfold RedisCache.getKey
    rw [RedisCache.set_config]
  rw [hkey, RedisCache.set_store c now key v ttl hsec, redisGet_storePut_self,
    if_pos hτ]
  simp [hne]

theorem natRepr_ne_empty (n : Nat) : natRepr n ≠ "" := by
  unfold natRepr
  split
  · decide
  next hn =>
    apply ne_of_data_ne
    simpa using natChars_ne_nil hn

theorem intRepr_ne_empty (i : Int) : intRepr i ≠ "" := by
  unfold intRepr
  split
  · apply ne_of_data_ne
    rw [String.data_append]
    simp
  · exact natRepr_ne_empty _

theorem serialize_ne_empty_of_ne_str (v : JVal) (h : ∀ s, v ≠ JVal.jstr s) :
    serialize v ≠ "" := by
  cases v with
  | jnull => decide
  | jbool b => cases b <;> decide
  | jnum i => exact intRepr_ne_empty i
  | jstr s => exact absurd rfl (h s)

theorem RedisCache.set_getKey (c : RedisCache) (now : Nat) (err : Bool)
    (key k2 : String) (v : JVal) (ttl : Option Nat) :
    (c.set now err key v ttl).getKey k2 = c.getKey k2 := by
  unfold RedisCache.getKey
  rw [RedisCache.set_config]

theorem RedisCache.clear_getKey (c : RedisCache) (k2 : String) :
    c.clear.getKey k2 = c.getKey k2 := by
  unfold RedisCache.getKey
  rw [RedisCache.clear_config]

theorem get_fst_none_of_absent (c : RedisCache) (now : Nat) (key : String)
    (h : redisGet c.store now (c.getKey key) = none) :
    (c.get now false key).1 = none := by
  rw [RedisCache.get_fst, h]

/-! ## Claim C1: serialize-on-set / decode-on-get round trip -/

/-- C1, counterexample: the round trip fails for string values that are
themselves valid JSON.  Setting the string `"123"` and reading it back
before the TTL elapses yields the *number* `123`, not the string set. -/
theorem claim_C1_counterexample :
    ((RedisCache.set (mkRedisCache (mkConfig none none none none) ⟨[]⟩) 0 false "user:1"
        (JVal.jstr "123") none).get 100 false "user:1").1 = some (JVal.jnum 123) ∧
      JVal.jnum 123 ≠ JVal.jstr "123" :=
  ⟨by decide, by decide⟩

theorem jsonUnparseable_ne_empty {s : String} (h : jsonUnparseable s = true) :
    s ≠ "" := by
  intro he
  subst he
  exact absurd h (by decide)

theorem jsonParse_eq_none_of_unparseable {s : String}
    (h : jsonUnparseable s = true) : jsonParse s = none := by
  cases hd : s.data with
  | nil => simp [jsonUnparseable, hd] at h
  | cons c rest =>
    have h2 := h
    unfold jsonUnparseable at h2
    rw [hd] at h2
    simp only [Bool.and_eq_true, Bool.not_eq_true', Bool.or_eq_false_iff,
      beq_eq_false_iff_ne, ne_eq] at h2
    obtain ⟨⟨⟨⟨⟨⟨⟨⟨⟨hdg, hq⟩, hm⟩, -⟩, -⟩, -⟩, -⟩, -⟩, -⟩, ⟨⟨hpt, hpf⟩, hpn⟩⟩ := h2
    have hnn : s ≠ "null" := by
      intro he
      subst he
      rw [← hd] at hpn
      exact absurd hpn (by decide)
    have hnt : s ≠ "true" := by
      intro he
      subst he
      rw [← hd] at hpt
      exact absurd hpt (by decide)
    have hnf : s ≠ "false" := by
      intro he
      subst he
      rw [← hd] at hpf
      exact absurd hpf (by decide)
    have hnat : isNatLit (c :: rest) = false := by
      simp [isNatLit, hdg]
    rw [jsonParse, if_neg hnn, if_neg hnt, if_neg hnf, hd, jsonParseChars,
      if_neg hq, if_neg hm, if_neg (by simp [hnat])]

theorem decodeVal_of_unparseable {s : String} (h : jsonUnparseable s = true) :
    decodeVal s = JVal.jstr s := by
  rw [decodeVal, jsonParse_eq_none_of_unparseable h, Option.getD_none]

/-- C1, amended: if `set(k, v)` succeeds and `get(k)` is called on the same
backend before the entry's TTL elapses, then `get(k)` returns exactly `v`,
provided `v` is not a string — or is a string that is recognizably not
JSON: its first character is none of the characters able to begin a JSON
value and it does not begin with `true`/`false`/`null`
(`jsonUnparseable`), so `JSON.parse` throws on it and `get` returns it
raw.  (A string value is stored raw; on read every stored string is first
offered to the JSON decoder, so a JSON-decodable string comes back as the
decoded value instead — see the counterexample — and the empty string
reads as a miss.) -/
theorem claim_C1_amended (c : RedisCache) (key : String) (v : JVal) (ttl : Option Nat)
    (now τ : Nat) (httl : 1000 ≤ c.effTtl ttl)
    (hτ : τ < now + 1000 * (c.effTtl ttl / 1000))
    (hv : (∀ s, v ≠ JVal.jstr s) ∨ ∃ s, v = JVal.jstr s ∧ jsonUnparseable s = true) :
    ((c.set now false key v ttl).get τ false key).1 = some v := by
  have hne : serialize v ≠ "" := by
    rcases hv with h | ⟨s, rfl, hs⟩
    · exact serialize_ne_empty_of_ne_str v h
    · simpa [serialize] using jsonUnparseable_ne_empty hs
  rw [get_after_set c key v ttl now τ httl hτ hne]
  congr 1
  rcases hv with h | ⟨s, rfl, hs⟩
  · exact decodeVal_serialize_of_ne_str v h
  · show decodeVal (serialize (JVal.jstr s)) = JVal.jstr s
    rw [show serialize (JVal.jstr s) = s from rfl, decodeVal_of_unparseable hs]

/-- Witness for C1 (amended) at a concrete input, exercising the string
branch. -/
theorem claim_C1_witness :
    ((RedisCache.set (mkRedisCache (mkConfig none none none none) ⟨[]⟩) 0 false "user:1"
        (JVal.jstr "hello") none).get 100 false "user:1").1
      = some (JVal.jstr "hello") :=
  claim_C1_amended (mkRedisCache (mkConfig none none none none) ⟨[]⟩) "user:1"
    (JVal.jstr "hello") none 0 100 (by decide) (by decide)
    (Or.inr ⟨"hello", rfl, by decide⟩)

/-! ## Claim C2: transport errors never propagate -/

/-- C2: a transport error inside any backend operation is absorbed:
`get` reports absent and leaves the store alone, `mget` reports absent for
every key, `has` is `false`, and `set`, `delete`, `mset` are no-ops. -/
theorem claim_C2 (c : RedisCache) (now : Nat) (key : String) (v : JVal)
    (keys : List String) (entries : List (String × JVal)) (ttl : Option Nat) :
    (c.get now true key).1 = none ∧
    (c.get now true key).2.store = c.store ∧
    c.set now true key v ttl = c ∧
    c.delete now true key = c ∧
    c.has now true key = false ∧
    (c.mget now true keys).1 = keys.map (fun _ => none) ∧
    (c.mget now true keys).2 = c ∧
    c.mset now true entries ttl = c :=
  ⟨rfl, c.recordMiss_store, rfl, rfl, rfl, rfl, rfl, rfl⟩

/-! ## Claim C3: `clear()` deletes nothing -/

/-- C3: `clear()` on the networked backend leaves the external store
untouched: every read observes exactly what it observed before the call,
and a previously `set`, unexpired key is still served afterwards. -/
theorem claim_C3 (c : RedisCache) (key : String) (now τ : Nat) (err : Bool)
    (v : JVal) (ttl : Option Nat)
    (httl : 1000 ≤ c.effTtl ttl) (hτ : τ < now + 1000 * (c.effTtl ttl / 1000))
    (hne : serialize v ≠ "") :
    c.clear.store = c.store ∧
    (c.clear.get τ err key).1 = (c.get τ err key).1 ∧
    ((c.set now false key v ttl).clear.get τ false key).1
      = some (decodeVal (serialize v)) := by
  have hsec : c.effTtl ttl / 1000 ≠ 0 := by omega
  refine ⟨c.clear_store, ?_, ?_⟩
  · cases err with
    | true => rfl
    | false =>
      rw [RedisCache.get_fst, RedisCache.get_fst, RedisCache.clear_getKey,
        RedisCache.clear_store]
  · rw [RedisCache.get_fst, RedisCache.clear_getKey, RedisCache.clear_store,
      RedisCache.set_getKey, RedisCache.set_store c now key v ttl hsec,
      redisGet_storePut_self, if_pos hτ]
    simp [hne]

/-- Witness for C3 at a concrete input. -/
theorem claim_C3_witness :
    (mkRedisCache (mkConfig none none none none) ⟨[]⟩).clear.store = (⟨[]⟩ : RedisStore) ∧
    ((mkRedisCache (mkConfig none none none none) ⟨[]⟩).clear.get 50 false "k").1
      = ((mkRedisCache (mkConfig none none none none) ⟨[]⟩).get 50 false "k").1 ∧
    (((mkRedisCache (mkConfig none none none none) ⟨[]⟩).set 0 false "k" JVal.jnull
        none).clear.get 50 false "k").1 = some (decodeVal (serialize JVal.jnull)) :=
  claim_C3 (mkRedisCache (mkConfig none none none none) ⟨[]⟩) "k" 0 50 false
    JVal.jnull none (by decide) (by decide) (by decide)

/-! ## Claim C4: TTL override and expiry -/

/-- C4, counterexample: with a TTL override of 1500 ms the millisecond
count is floored to 1 second by `Math.floor(ttl / 1000)`, so at 1200 ms —
strictly before 1500 ms have elapsed — the key is already absent,
contradicting the claimed presence window. -/
theorem claim_C4_counterexample :
    (1200 < 1500) ∧
    ((RedisCache.set (mkRedisCache (mkConfig none none none none) ⟨[]⟩) 0 false "k"
        (JVal.jnum 7) (some 1500)).get 1200 false "k").1 = none :=
  ⟨by decide, by decide⟩

/-- C4, amended: `set(key, value, t)` with `1000 ≤ t` stores the value
under the expiring-key primitive with expiry `now + 1000 * (t / 1000)` —
the millisecond TTL floored to the store's seconds — so the value is
present at every time strictly before that stored expiry (not before `t`)
and absent from then on.  For `t < 1000` the floored expire time is zero,
which the store rejects, and nothing is written at all. -/
theorem claim_C4_amended (c : RedisCache) (key : String) (v : JVal) (t now τ : Nat)
    (ht : 1000 ≤ t) :
    redisGet (c.set now false key v (some t)).store τ (c.getKey key)
      = (if τ < now + 1000 * (t / 1000) then some (serialize v) else none) ∧
    (τ < now + 1000 * (t / 1000) → serialize v ≠ "" →
      ((c.set now false key v (some t)).get τ false key).1
        = some (decodeVal (serialize v))) ∧
    (now + 1000 * (t / 1000) ≤ τ →
      ((c.set now false key v (some t)).get τ false key).1 = none) := by
  have hefft : c.effTtl (some t) = t := by
    simp only [RedisCache.effTtl]
    rw [if_neg (show ¬ t = 0 by omega)]
  have hsec : c.effTtl (some t) / 1000 ≠ 0 := by rw [hefft]; omega
  refine ⟨?_, ?_, ?_⟩
  · rw [RedisCache.set_store c now key v (some t) hsec, redisGet_storePut_self, hefft]
  · intro h1 h2
    exact get_after_set c key v (some t) now τ (by rw [hefft]; exact ht)
      (by rw [hefft]; exact h1) h2
  · intro h1
    apply get_fst_none_of_absent
    rw [RedisCache.set_getKey, RedisCache.set_store c now key v (some t) hsec,
      redisGet_storePut_self, hefft, if_neg (by omega)]

/-- Witness for C4 (amended) at a concrete input. -/
theorem claim_C4_witness :
    redisGet ((mkRedisCache (mkConfig none none none none) ⟨[]⟩).set 0 false "k"
        (JVal.jnum 7) (some 1500)).store 900
        ((mkRedisCache (mkConfig none none none none) ⟨[]⟩).getKey "k")
      = (if (900 : Nat) < 0 + 1000 * (1500 / 1000) then some (serialize (JVal.jnum 7))
         else none) ∧
    ((900 : Nat) < 0 + 1000 * (1500 / 1000) → serialize (JVal.jnum 7) ≠ "" →
      (((mkRedisCache (mkConfig none none none none) ⟨[]⟩).set 0 false "k" (JVal.jnum 7)
          (some 1500)).get 900 false "k").1 = some (decodeVal (serialize (JVal.jnum 7)))) ∧
    (0 + 1000 * (1500 / 1000) ≤ (900 : Nat) →
      (((mkRedisCache (mkConfig none none none none) ⟨[]⟩).set 0 false "k" (JVal.jnum 7)
          (some 1500)).get 900 false "k").1 = none) :=
  claim_C4_amended (mkRedisCache (mkConfig none none none none) ⟨[]⟩) "k"
    (JVal.jnum 7) 1500 0 900 (by decide)

/-! ## Claim C5: every `get` counts exactly one hit or miss -/

theorem RedisCache.recordMiss_stats (c : RedisCache) (h : c.config.enableStats = true) :
    c.recordMiss.stats.hits = c.stats.hits ∧
      c.recordMiss.stats.misses = c.stats.misses + 1 ∧
      c.recordMiss.stats.sets = c.stats.sets := by
  unfold RedisCache.recordMiss RedisCache.updateHitRate
  rw [if_pos h]
  exact ⟨rfl, rfl, rfl⟩

theorem RedisCache.recordHit_stats (c : RedisCache) (h : c.config.enableStats = true) :
    c.recordHit.stats.hits = c.stats.hits + 1 ∧
      c.recordHit.stats.misses = c.stats.misses ∧
      c.recordHit.stats.sets = c.stats.sets := by
  unfold RedisCache.recordHit RedisCache.updateHitRate
  rw [if_pos h]
  exact ⟨rfl, rfl, rfl⟩

/-- Case analysis of one `get` call: it is a miss (transport error, absent
or expired key, or empty stored string) or a hit on a nonempty stored
string. -/
theorem RedisCache.get_cases (c : RedisCache) (now : Nat) (err : Bool) (key : String) :
    ((err = true ∨ redisGet c.store now (c.getKey key) = none ∨
        redisGet c.store now (c.getKey key) = some "") ∧
      c.get now err key = (none, c.recordMiss)) ∨
    (∃ s, err = false ∧ redisGet c.store now (c.getKey key) = some s ∧ s ≠ "" ∧
      c.get now err key = (some (decodeVal s), c.recordHit)) := by
  cases err with
  | true => exact Or.inl ⟨Or.inl rfl, rfl⟩
  | false =>
    cases h : redisGet c.store now (c.getKey key) with
    | none =>
      refine Or.inl ⟨Or.inr (Or.inl rfl), ?_⟩
      unfold RedisCache.get
      simp [h]
    | some s =>
      by_cases hs : s = ""
      · subst hs
        refine Or.inl ⟨Or.inr (Or.inr rfl), ?_⟩
        unfold RedisCache.get
        simp [h]
      · refine Or.inr ⟨s, rfl, rfl, hs, ?_⟩
        unfold RedisCache.get
        simp [h, hs]

/-- C5: with stats enabled, each `get` call increments exactly one of the
hit and miss counters — the hit counter exactly when an unexpired,
nonempty stored value is returned, and the miss counter when the key is
absent or expired, the stored string is empty, or a transport error
occurred. -/
theorem claim_C5 (c : RedisCache) (now : Nat) (err : Bool) (key : String)
    (hstats : c.config.enableStats = true) :
    (((c.get now err key).2.stats.hits = c.stats.hits + 1 ∧
      (c.get now err key).2.stats.misses = c.stats.misses) ∨
     ((c.get now err key).2.stats.hits = c.stats.hits ∧
      (c.get now err key).2.stats.misses = c.stats.misses + 1)) ∧
    ((c.get now err key).1.isSome = true →
      (c.get now err key).2.stats.hits = c.stats.hits + 1) ∧
    ((c.get now err key).1 = none →
      (c.get now err key).2.stats.misses = c.stats.misses + 1) ∧
    ((c.get now err key).1.isSome = true ↔
      err = false ∧ ∃ s, redisGet c.store now (c.getKey key) = some s ∧ s ≠ "") := by
  obtain ⟨hm1, hm2, -⟩ := c.recordMiss_stats hstats
  obtain ⟨hh1, hh2, -⟩ := c.recordHit_stats hstats
  rcases c.get_cases now err key with ⟨hcond, heq⟩ | ⟨s, herr, hred, hs, heq⟩
  · rw [heq]
    refine ⟨Or.inr ⟨hm1, hm2⟩, by simp, fun _ => hm2, ?_⟩
    simp only [Option.isSome_none, Bool.false_eq_true, false_iff]
    rintro ⟨rfl, s, hred, hs⟩
    rcases hcond with h | h | h
    · exact Bool.noConfusion h
    · rw [hred] at h; exact Option.noConfusion h
    · rw [hred] at h; exact hs (Option.some_inj.mp h)
  · rw [heq]
    subst herr
    refine ⟨Or.inl ⟨hh1, hh2⟩, fun _ => hh1, by simp, ?_⟩
    simp only [Option.isSome_some, true_iff]
    exact ⟨trivial, s, hred, hs⟩

/-- Witness for C5 at a concrete input. -/
theorem claim_C5_witness :
    ((((mkRedisCache (mkConfig none none none none) ⟨[]⟩).get 0 false "k").2.stats.hits
        = (mkRedisCache (mkConfig none none none none) ⟨[]⟩).stats.hits + 1 ∧
      ((mkRedisCache (mkConfig none none none none) ⟨[]⟩).get 0 false "k").2.stats.misses
        = (mkRedisCache (mkConfig none none none none) ⟨[]⟩).stats.misses) ∨
     (((mkRedisCache (mkConfig none none none none) ⟨[]⟩).get 0 false "k").2.stats.hits
        = (mkRedisCache (mkConfig none none none none) ⟨[]⟩).stats.hits ∧
      ((mkRedisCache (mkConfig none none none none) ⟨[]⟩).get 0 false "k").2.stats.misses
        = (mkRedisCache (mkConfig none none none none) ⟨[]⟩).stats.misses + 1)) ∧
    (((mkRedisCache (mkConfig none none none none) ⟨[]⟩).get 0 false "k").1.isSome = true →
      ((mkRedisCache (mkConfig none none none none) ⟨[]⟩).get 0 false "k").2.stats.hits
        = (mkRedisCache (mkConfig none none none none) ⟨[]⟩).stats.hits + 1) ∧
    (((mkRedisCache (mkConfig none none none none) ⟨[]⟩).get 0 false "k").1 = none →
      ((mkRedisCache (mkConfig none none none none) ⟨[]⟩).get 0 false "k").2.stats.misses
        = (mkRedisCache (mkConfig none none none none) ⟨[]⟩).stats.misses + 1) ∧
    (((mkRedisCache (mkConfig none none none none) ⟨[]⟩).get 0 false "k").1.isSome = true ↔
      false = false ∧ ∃ s, redisGet (mkRedisCache (mkConfig none none none none) ⟨[]⟩).store 0
        ((mkRedisCache (mkConfig none none none none) ⟨[]⟩).getKey "k") = some s ∧ s ≠ "") :=
  claim_C5 (mkRedisCache (mkConfig none none none none) ⟨[]⟩) 0 false "k" (by decide)

/-! ## Claim C6: `mget` versus repeated `get` -/

/-- A one-entry backend used to exhibit `mget`'s missing stats updates. -/
def mgetExample : RedisCache :=
  { config := mkConfig none none none none
    stats := { hits := 0, misses := 0, sets := 0, deletes := 0, size := 0, hitRate := 0 }
    store := ⟨[("dvt:k", "7", 1000)]⟩ }

/-- C6, counterexample: on a backend holding one live key, a singular `get`
counts a hit, but `mget` of the same key — although it returns the same
value — records no hit at all, contradicting the claimed per-key stats
bookkeeping. -/
theorem claim_C6_counterexample :
    (mgetExample.mget 0 false ["k"]).1 = [some (JVal.jnum 7)] ∧
    (mgetExample.mget 0 false ["k"]).2.stats.hits = 0 ∧
    (mgetExample.get 0 false "k").1 = some (JVal.jnum 7) ∧
    (mgetExample.get 0 false "k").2.stats.hits = 1 :=
  ⟨by decide, by decide, by decide, by decide⟩

/-- C6, amended: `mget(ks)` returns, per key, exactly the value a singular
`get` of that key would return at that moment (and a transport error yields
absent for every key), but it performs no hit/miss bookkeeping at all: the
backend state, stats included, is unchanged. -/
theorem claim_C6_amended (c : RedisCache) (now : Nat) (keys : List String) :
    (c.mget now false keys).1 = keys.map (fun k => (c.get now false k).1) ∧
    (c.mget now false keys).2 = c ∧
    (c.mget now true keys).1 = keys.map (fun _ => none) := by
  refine ⟨?_, rfl, rfl⟩
  apply List.map_congr_left
  intro k _
  rw [RedisCache.get_fst]

/-! ## Claim C10: the empty string reads as a miss but exists -/

/-- C10: when the store holds the empty string as the (unexpired) value of
a key — as happens after `set(key, "")`, since a string value is stored
raw — `get` reports absent and counts a miss (the `!value` check treats
`""` as missing), while `has` on the same key returns `true`. -/
theorem claim_C10 (c : RedisCache) (now : Nat) (key : String)
    (hstats : c.config.enableStats = true)
    (h : redisGet c.store now (c.getKey key) = some "") :
    (c.get now false key).1 = none ∧
    (c.get now false key).2.stats.misses = c.stats.misses + 1 ∧
    (c.get now false key).2.stats.hits = c.stats.hits ∧
    c.has now false key = true := by
  obtain ⟨hm1, hm2, -⟩ := c.recordMiss_stats hstats
  have hget : c.get now false key = (none, c.recordMiss) := by
    unfold RedisCache.get
    simp [h]
  rw [hget]
  refine ⟨rfl, hm2, hm1, ?_⟩
  unfold RedisCache.has
  simp [h]

/-- Witness for C10: the state reached by `set("k", "")` on a fresh backend. -/
theorem claim_C10_witness :
    (((mkRedisCache (mkConfig none none none none) ⟨[]⟩).set 0 false "k" (JVal.jstr "")
        none).get 100 false "k").1 = none ∧
    (((mkRedisCache (mkConfig none none none none) ⟨[]⟩).set 0 false "k" (JVal.jstr "")
        none).get 100 false "k").2.stats.misses
      = ((mkRedisCache (mkConfig none none none none) ⟨[]⟩).set 0 false "k" (JVal.jstr "")
        none).stats.misses + 1 ∧
    (((mkRedisCache (mkConfig none none none none) ⟨[]⟩).set 0 false "k" (JVal.jstr "")
        none).get 100 false "k").2.stats.hits
      = ((mkRedisCache (mkConfig none none none none) ⟨[]⟩).set 0 false "k" (JVal.jstr "")
        none).stats.hits ∧
    ((mkRedisCache (mkConfig none none none none) ⟨[]⟩).set 0 false "k" (JVal.jstr "")
        none).has 100 false "k" = true :=
  claim_C10 ((mkRedisCache (mkConfig none none none none) ⟨[]⟩).set 0 false "k"
    (JVal.jstr "") none) 100 "k" (by decide) (by decide)

/-! ## Claim C8: key namespacing isolates deployments -/

theorem append_ne_append_of_no_pref {p1 p2 : String} (h1 : ¬ p1.data <+: p2.data)
    (h2 : ¬ p2.data <+: p1.data) (k k' : String) : p1 ++ k ≠ p2 ++ k' := by
  intro he
  have hd : p1.data ++ k.data = p2.data ++ k'.data := by
    have := congrArg String.data he
    simpa [String.data_append] using this
  have ha : p1.data <+: p2.data ++ k'.data := hd ▸ List.prefix_append p1.data k.data
  have hb : p2.data <+: p2.data ++ k'.data := List.prefix_append _ _
  rcases List.prefix_or_prefix_of_prefix ha hb with h | h
  · exact h1 h
  · exact h2 h

theorem not_isPrefixOf_append {p1 p2 : String} (h1 : ¬ p1.data <+: p2.data)
    (h2 : ¬ p2.data <+: p1.data) (k' : String) :
    p1.data.isPrefixOf (p2 ++ k').data = false := by
  rw [Bool.eq_false_iff]
  intro hpre
  rw [String.data_append, List.isPrefixOf_iff_prefix] at hpre
  rcases List.prefix_or_prefix_of_prefix hpre (List.prefix_append _ _) with h | h
  · exact h1 h
  · exact h2 h

/-- Step equation of the matcher on a non-metacharacter pattern head and
an empty subject. -/
theorem globMatchAux_default_nil (f : Nat) (c : Char) (pr : List Char)
    (hc1 : c ≠ '*') (hc2 : c ≠ '?') (hc3 : c ≠ '[') (hc4 : c ≠ '\\') :
    globMatchAux (f + 1) (c :: pr) [] = false := by
  show (if c = '*' then
          globMatchAux f pr [] ||
            (match ([] : List Char) with
             | [] => false
             | _ :: s2 => globMatchAux f (c :: pr) s2)
        else if c = '?' then
          (match ([] : List Char) with
           | [] => false
           | _ :: s2 => globMatchAux f pr s2)
        else if c = '[' then
          (match ([] : List Char) with
           | [] => false
           | c2 :: s2 =>
             match pr with
             | '^' :: r =>
               classMatch true (classItems r).1 c2 && globMatchAux f (classItems r).2 s2
             | _ =>
               classMatch false (classItems pr).1 c2 && globMatchAux f (classItems pr).2 s2)
        else if c = '\\' then
          (match pr, ([] : List Char) with
           | e :: pr2, c2 :: s2 => e == c2 && globMatchAux f pr2 s2
           | _ :: _, [] => false
           | [], c2 :: s2 => c == c2 && globMatchAux f pr s2
           | [], [] => false)
        else
          (match ([] : List Char) with
           | [] => false
           | c2 :: s2 => c == c2 && globMatchAux f pr s2)) = false
  rw [if_neg hc1, if_neg hc2, if_neg hc3, if_neg hc4]

/-- Step equation of the matcher on a non-metacharacter pattern head and
a nonempty subject: literal comparison of the heads. -/
theorem globMatchAux_default_cons (f : Nat) (c : Char) (pr : List Char)
    (c2 : Char) (s2 : List Char)
    (hc1 : c ≠ '*') (hc2 : c ≠ '?') (hc3 : c ≠ '[') (hc4 : c ≠ '\\') :
    globMatchAux (f + 1) (c :: pr) (c2 :: s2)
      = (c == c2 && globMatchAux f pr s2) := by
  show (if c = '*' then
          globMatchAux f pr (c2 :: s2) ||
            (match c2 :: s2 with
             | [] => false
             | _ :: s2 => globMatchAux f (c :: pr) s2)
        else if c = '?' then
          (match c2 :: s2 with
           | [] => false
           | _ :: s2 => globMatchAux f pr s2)
        else if c = '[' then
          (match c2 :: s2 with
           | [] => false
           | c2 :: s2 =>
             match pr with
             | '^' :: r =>
               classMatch true (classItems r).1 c2 && globMatchAux f (classItems r).2 s2
             | _ =>
               classMatch false (classItems pr).1 c2 && globMatchAux f (classItems pr).2 s2)
        else if c = '\\' then
          (match pr, c2 :: s2 with
           | e :: pr2, c2 :: s2 => e == c2 && globMatchAux f pr2 s2
           | _ :: _, [] => false
           | [], c2 :: s2 => c == c2 && globMatchAux f pr s2
           | [], [] => false)
        else
          (match c2 :: s2 with
           | [] => false
           | c2 :: s2 => c == c2 && globMatchAux f pr s2)) = _
  rw [if_neg hc1, if_neg hc2, if_neg hc3, if_neg hc4]

theorem globMatchAux_star : ∀ (s : List Char) (fuel : Nat), s.length + 1 < fuel →
    globMatchAux fuel ['*'] s = true := by
  intro s
  induction s with
  | nil =>
    intro fuel h
    rcases fuel with _ | _ | f
    · omega
    · omega
    · rfl
  | cons a s ih =>
    intro fuel h
    rcases fuel with _ | f
    · omega
    · have hstep : globMatchAux (f + 1) ['*'] (a :: s)
          = (globMatchAux f [] (a :: s) || globMatchAux f ['*'] s) := rfl
      rw [hstep, ih f (by simp only [List.length_cons] at h; omega)]
      simp

theorem globMatchAux_lit : ∀ (p : List Char),
    (∀ c ∈ p, c ≠ '*' ∧ c ≠ '?' ∧ c ≠ '[' ∧ c ≠ '\\') →
    ∀ (s : List Char) (fuel : Nat), p.length + s.length + 1 < fuel →
    globMatchAux fuel (p ++ ['*']) s = p.isPrefixOf s := by
  intro p
  induction p with
  | nil =>
    intro _ s fuel h
    rw [List.nil_append, globMatchAux_star s fuel (by simpa using h)]
    cases s <;> rfl
  | cons c p ih =>
    intro hm s fuel h
    obtain ⟨hc1, hc2, hc3, hc4⟩ := hm c (List.mem_cons_self c p)
    have hm2 := fun x hx => hm x (List.mem_cons_of_mem c hx)
    rcases fuel with _ | f
    · omega
    · rw [List.cons_append]
      cases s with
      | nil =>
        rw [globMatchAux_default_nil f c (p ++ ['*']) hc1 hc2 hc3 hc4]
        rfl
      | cons c2 s2 =>
        rw [globMatchAux_default_cons f c (p ++ ['*']) c2 s2 hc1 hc2 hc3 hc4,
          ih hm2 s2 f (by simp only [List.length_cons] at h ⊢; omega)]
        rfl

theorem globMatch_lit (p s : List Char)
    (hp : ∀ c ∈ p, c ≠ '*' ∧ c ≠ '?' ∧ c ≠ '[' ∧ c ≠ '\\') :
    globMatch (p ++ ['*']) s = p.isPrefixOf s := by
  unfold globMatch
  exact globMatchAux_lit p hp s _
    (by simp only [List.length_append, List.length_cons, List.length_nil]; omega)

/-- Whether a prefix contains none of the Redis glob metacharacters, so
that the `SCAN` pattern `` `${keyPrefix}*` `` is a literal prefix test. -/
def noGlobMeta (p : String) : Bool :=
  p.data.all (fun c => !(c == '*' || c == '?' || c == '[' || c == '\\'))

theorem noGlobMeta_spec {p : String} (hp : noGlobMeta p = true) :
    ∀ c ∈ p.data, c ≠ '*' ∧ c ≠ '?' ∧ c ≠ '[' ∧ c ≠ '\\' := by
  intro c hc
  have h2 := (List.all_eq_true.mp hp) c hc
  simp only [Bool.not_eq_true', Bool.or_eq_false_iff, beq_eq_false_iff_ne,
    ne_eq] at h2
  exact ⟨h2.1.1.1, h2.1.1.2, h2.1.2, h2.2⟩

theorem countMatching_eq_countPref {p : String} (hp : noGlobMeta p = true)
    (st : RedisStore) (now : Nat) :
    countMatching p st now = countPref p st now := by
  unfold countMatching countPref
  congr 1
  apply List.filter_congr
  intro e _
  rw [globMatch_lit p.data e.1.data (noGlobMeta_spec hp)]

theorem countPref_filter_other {p1 q : String}
    (hq : p1.data.isPrefixOf q.data = false) (l : List (String × String × Nat))
    (now : Nat) :
    (List.filter (fun e => p1.data.isPrefixOf e.1.data && decide (now < e.2.2))
        (l.filter (fun e => e.1 != q))).length
      = (l.filter (fun e => p1.data.isPrefixOf e.1.data && decide (now < e.2.2))).length := by
  rw [List.filter_filter]
  congr 1
  apply List.filter_congr
  intro e _
  by_cases heq : e.1 = q
  · rw [heq, hq]
    simp
  · simp [heq]

theorem countPref_storePut_other {p1 q : String}
    (hq : p1.data.isPrefixOf q.data = false) (st : RedisStore) (v : String)
    (exp now : Nat) :
    countPref p1 (storePut st q v exp) now = countPref p1 st now := by
  unfold countPref storePut
  rw [List.filter_cons]
  simp only [hq, Bool.false_and, if_false]
  exact countPref_filter_other hq st.entries now

/-- The deployment whose configured prefix `"a*"` contains a glob
metacharacter, attached to a store holding only the other deployment's key
`"ab:" ++ "k"`. -/
def globCexCache : RedisCache :=
  { config := { ttl := 300000, maxSize := 0, enableStats := true, keyPrefix := "a*" }
    stats := { hits := 0, misses := 0, sets := 0, deletes := 0, size := 0, hitRate := 0 }
    store := storePut ⟨[]⟩ ("ab:" ++ "k") "v" 100 }

/-- C8, counterexample: `updateSize` splices the prefix unescaped into the
`SCAN` pattern `` `${keyPrefix}*` ``, where `*` is a glob metacharacter.
With prefixes `"a*"` and `"ab:"` — neither a string prefix of the other,
so the claim's hypotheses hold — the first deployment's scan pattern
`a**` matches the second deployment's live key `ab:k`, so its
`getStats().size` is 1 although no key begins with its prefix `"a*"`:
it counts the other deployment's entry. -/
theorem claim_C8_counterexample :
    (¬ "a*".data <+: "ab:".data) ∧ (¬ "ab:".data <+: "a*".data) ∧
    redisGet globCexCache.store 0 ("ab:" ++ "k") = some "v" ∧
    "a*".data.isPrefixOf ("ab:" ++ "k").data = false ∧
    (globCexCache.getStats 0 false).1.size = 1 :=
  ⟨by decide, by decide, by decide, by decide, by decide⟩

/-- C8, amended: with a configured prefix `p1`, every store access of the
backend is at exactly `p1 ++ callerKey`; no such key coincides with a key
of a deployment with prefix `p2` when neither prefix extends the other, so
writes never touch and reads never observe the other deployment's entries
— and, provided `p1` contains no Redis glob metacharacters (`*`, `?`,
`[`, `\\`), `getStats().size` counts exactly the live keys literally under
`p1`, unaffected by the other deployment's writes.  (With metacharacters
in the prefix the unescaped `SCAN` pattern can match foreign keys — see
the counterexample.) -/
theorem claim_C8 (p1 p2 : String) (c : RedisCache) (k k' k2 : String) (v : JVal)
    (sv : String) (exp now τ : Nat) (err : Bool) (ttl : Option Nat)
    (h1 : ¬ p1.data <+: p2.data) (h2 : ¬ p2.data <+: p1.data)
    (hc : c.config.keyPrefix = p1) (hstats : c.config.enableStats = true)
    (hmeta : noGlobMeta p1 = true) :
    c.getKey k = p1 ++ k ∧
    c.getKey k ≠ p2 ++ k' ∧
    redisGet (c.set now err k v ttl).store τ (p2 ++ k') = redisGet c.store τ (p2 ++ k') ∧
    redisGet (c.delete now err k).store τ (p2 ++ k') = redisGet c.store τ (p2 ++ k') ∧
    (({ c with store := storePut c.store (p2 ++ k2) sv exp } : RedisCache).get now err k).1
      = (c.get now err k).1 ∧
    (c.getStats now false).1.size = countPref p1 c.store now ∧
    countMatching p1 (storePut c.store (p2 ++ k2) sv exp) now
      = countMatching p1 c.store now := by
  have hkey : c.getKey k = p1 ++ k := by unfold RedisCache.getKey; rw [hc]
  have hne : ∀ kk : String, c.getKey k ≠ p2 ++ kk := fun kk => by
    rw [hkey]; exact append_ne_append_of_no_pref h1 h2 k kk
  refine ⟨hkey, hne k', ?_, ?_, ?_, ?_, ?_⟩
  · cases err with
    | true => rfl
    | false =>
      by_cases hsec : c.effTtl ttl / 1000 = 0
      · have : (c.set now false k v ttl).store = c.store := by
          simp only [RedisCache.set, Bool.false_eq_true, if_false, if_pos hsec]
        rw [this]
      · rw [RedisCache.set_store c now k v ttl hsec,
          redisGet_storePut_other _ _ _ _ (Ne.symm (hne k'))]
  · cases err with
    | true => rfl
    | false =>
      have : (c.delete now false k).store = storeDel c.store (c.getKey k) := by
        simp only [RedisCache.delete, Bool.false_eq_true, if_false]
        split <;> rfl
      rw [this, redisGet_storeDel_other _ _ (Ne.symm (hne k'))]
  · cases err with
    | true => rfl
    | false =>
      rw [RedisCache.get_fst, RedisCache.get_fst]
      have hgk : ({ c with store := storePut c.store (p2 ++ k2) sv exp } : RedisCache).getKey k
          = c.getKey k := rfl
      rw [hgk]
      show (match redisGet (storePut c.store (p2 ++ k2) sv exp) now (c.getKey k) with
        | none => none
        | some s => if s = "" then none else some (decodeVal s)) = _
      rw [redisGet_storePut_other _ _ _ _ (hne k2)]
  · simp only [RedisCache.getStats, RedisCache.updateSize, hstats, if_pos,
      Bool.false_eq_true, if_false, hc]
    exact countMatching_eq_countPref hmeta c.store now
  · rw [countMatching_eq_countPref hmeta, countMatching_eq_countPref hmeta]
    exact countPref_storePut_other (not_isPrefixOf_append h1 h2 k2) c.store sv exp now

/-- The deployment-`"a:"` backend used in the C8 witness. -/
def prefCacheA : RedisCache :=
  { config := { ttl := 300000, maxSize := 0, enableStats := true, keyPrefix := "a:" }
    stats := { hits := 0, misses := 0, sets := 0, deletes := 0, size := 0, hitRate := 0 }
    store := ⟨[]⟩ }

/-- Witness for C8 (amended) at concrete metacharacter-free prefixes
`"a:"` and `"b:"`. -/
theorem claim_C8_witness :
    prefCacheA.getKey "u" = "a:" ++ "u" ∧
    prefCacheA.getKey "u" ≠ "b:" ++ "u" ∧
    redisGet (prefCacheA.set 5 false "u" (JVal.jstr "x") none).store 6 ("b:" ++ "u")
      = redisGet prefCacheA.store 6 ("b:" ++ "u") ∧
    redisGet (prefCacheA.delete 5 false "u").store 6 ("b:" ++ "u")
      = redisGet prefCacheA.store 6 ("b:" ++ "u") ∧
    (({ prefCacheA with
        store := storePut prefCacheA.store ("b:" ++ "w") "y" 99 } : RedisCache).get
          5 false "u").1
      = (prefCacheA.get 5 false "u").1 ∧
    (prefCacheA.getStats 5 false).1.size = countPref "a:" prefCacheA.store 5 ∧
    countMatching "a:" (storePut prefCacheA.store ("b:" ++ "w") "y" 99) 5
      = countMatching "a:" prefCacheA.store 5 :=
  claim_C8 "a:" "b:" prefCacheA "u" "u" "w" (JVal.jstr "x") "y" 99 5 6 false none
    (by decide) (by decide) rfl rfl (by decide)

/-! ## Claim C7: stats counters and the hit-rate invariant -/

/-- One backend call, with its per-call inputs (instant, transport-error
flag, arguments). -/
inductive CacheOp where
  | opGet (now : Nat) (err : Bool) (key : String)
  | opSet (now : Nat) (err : Bool) (key : String) (v : JVal) (ttl : Option Nat)
  | opDelete (now : Nat) (err : Bool) (key : String)
  | opHas (now : Nat) (err : Bool) (key : String)
  | opMget (now : Nat) (err : Bool) (keys : List String)
  | opMset (now : Nat) (err : Bool) (entries : List (String × JVal)) (ttl : Option Nat)
  | opClear
  | opGetStats (now : Nat) (err : Bool)

/-- State transition of one backend call (results discarded). -/
def applyOp (c : RedisCache) : CacheOp → RedisCache
  | .opGet now err key => (c.get now err key).2
  | .opSet now err key v ttl => c.set now err key v ttl
  | .opDelete now err key => c.delete now err key
  | .opHas _ _ _ => c
  | .opMget now err keys => (c.mget now err keys).2
  | .opMset now err entries ttl => c.mset now err entries ttl
  | .opClear => c.clear
  | .opGetStats now err => (c.getStats now err).2

/-- Running a sequence of backend calls. -/
def runOps (c : RedisCache) (ops : List CacheOp) : RedisCache :=
  ops.foldl applyOp c

/-- Hit events of one call in a given state: a `get` returning a value. -/
def opHits (c : RedisCache) : CacheOp → Nat
  | .opGet now err key => if (c.get now err key).1.isSome then 1 else 0
  | _ => 0

/-- Miss events of one call in a given state: a `get` returning absent. -/
def opMisses (c : RedisCache) : CacheOp → Nat
  | .opGet now err key => if (c.get now err key).1.isSome then 0 else 1
  | _ => 0

/-- Successful stored writes of one call: a `set` (or each entry of an
`mset`) that reached the store — no transport error and a nonzero floored
expire time. -/
def opSets (c : RedisCache) : CacheOp → Nat
  | .opSet _ err _ _ ttl => if err = false ∧ c.effTtl ttl / 1000 ≠ 0 then 1 else 0
  | .opMset _ err entries ttl =>
    if err = false ∧ c.effTtl ttl / 1000 ≠ 0 then entries.length else 0
  | _ => 0

/-- Events of a kind along a whole call sequence. -/
def traceCount (f : RedisCache → CacheOp → Nat) (c : RedisCache) :
    List CacheOp → Nat
  | [] => 0
  | op :: ops => f c op + traceCount f (applyOp c op) ops

theorem RedisCache.recordMiss_config (c : RedisCache) :
    c.recordMiss.config = c.config := by
  unfold RedisCache.recordMiss; split <;> rfl

theorem RedisCache.recordHit_config (c : RedisCache) :
    c.recordHit.config = c.config := by
  unfold RedisCache.recordHit; split <;> rfl

theorem RedisCache.delete_config (c : RedisCache) (now : Nat) (err : Bool)
    (key : String) : (c.delete now err key).config = c.config := by
  simp only [RedisCache.delete]
  split
  · rfl
  · split <;> rfl

theorem RedisCache.mget_snd (c : RedisCache) (now : Nat) (err : Bool)
    (keys : List String) : (c.mget now err keys).2 = c := by
  unfold RedisCache.mget; split <;> rfl

theorem RedisCache.mset_config (c : RedisCache) (now : Nat) (err : Bool)
    (entries : List (String × JVal)) (ttl : Option Nat) :
    (c.mset now err entries ttl).config = c.config := by
  simp only [RedisCache.mset]
  split
  · rfl
  · split
    · rfl
    · split <;> rfl

theorem RedisCache.getStats_snd_config (c : RedisCache) (now : Nat) (err : Bool) :
    (c.getStats now err).2.config = c.config := by
  simp only [RedisCache.getStats, RedisCache.updateSize]
  split
  · split <;> rfl
  · rfl

theorem applyOp_config (c : RedisCache) (op : CacheOp) :
    (applyOp c op).config = c.config := by
  cases op with
  | opGet now err key =>
    show ((c.get now err key).2).config = c.config
    rcases c.get_cases now err key with ⟨-, heq⟩ | ⟨s, -, -, -, heq⟩
    · rw [heq]; exact c.recordMiss_config
    · rw [heq]; exact c.recordHit_config
  | opSet now err key v ttl => exact c.set_config now err key v ttl
  | opDelete now err key => exact c.delete_config now err key
  | opHas _ _ _ => rfl
  | opMget now err keys => rw [show applyOp c (.opMget now err keys) = (c.mget now err keys).2 from rfl, c.mget_snd]
  | opMset now err entries ttl => exact c.mset_config now err entries ttl
  | opClear => exact c.clear_config
  | opGetStats now err => exact c.getStats_snd_config now err

theorem RedisCache.set_hmr (c : RedisCache) (now : Nat) (err : Bool) (key : String)
    (v : JVal) (ttl : Option Nat) :
    (c.set now err key v ttl).stats.hits = c.stats.hits ∧
    (c.set now err key v ttl).stats.misses = c.stats.misses ∧
    (c.set now err key v ttl).stats.hitRate = c.stats.hitRate := by
  simp only [RedisCache.set]
  split
  · exact ⟨rfl, rfl, rfl⟩
  · split
    · exact ⟨rfl, rfl, rfl⟩
    · split <;> exact ⟨rfl, rfl, rfl⟩

theorem RedisCache.set_sets (c : RedisCache) (now : Nat) (err : Bool) (key : String)
    (v : JVal) (ttl : Option Nat) :
    (c.set now err key v ttl).stats.sets = c.stats.sets
      + (if c.config.enableStats = true then
          (if err = false ∧ c.effTtl ttl / 1000 ≠ 0 then 1 else 0) else 0) := by
  cases err with
  | true => simp [RedisCache.set]
  | false =>
    by_cases hsec : c.effTtl ttl / 1000 = 0
    · simp [RedisCache.set, hsec]
    · by_cases hst : c.config.enableStats = true
      · simp [RedisCache.set, hsec, hst]
      · simp [RedisCache.set, hsec, hst]

theorem RedisCache.delete_hmrs (c : RedisCache) (now : Nat) (err : Bool)
    (key : String) :
    (c.delete now err key).stats.hits = c.stats.hits ∧
    (c.delete now err key).stats.misses = c.stats.misses ∧
    (c.delete now err key).stats.sets = c.stats.sets ∧
    (c.delete now err key).stats.hitRate = c.stats.hitRate := by
  simp only [RedisCache.delete]
  split
  · exact ⟨rfl, rfl, rfl, rfl⟩
  · split <;> exact ⟨rfl, rfl, rfl, rfl⟩

theorem RedisCache.mset_hmr (c : RedisCache) (now : Nat) (err : Bool)
    (entries : List (String × JVal)) (ttl : Option Nat) :
    (c.mset now err entries ttl).stats.hits = c.stats.hits ∧
    (c.mset now err entries ttl).stats.misses = c.stats.misses ∧
    (c.mset now err entries ttl).stats.hitRate = c.stats.hitRate := by
  simp only [RedisCache.mset]
  split
  · exact ⟨rfl, rfl, rfl⟩
  · split
    · exact ⟨rfl, rfl, rfl⟩
    · split <;> exact ⟨rfl, rfl, rfl⟩

theorem RedisCache.mset_sets (c : RedisCache) (now : Nat) (err : Bool)
    (entries : List (String × JVal)) (ttl : Option Nat) :
    (c.mset now err entries ttl).stats.sets = c.stats.sets
      + (if c.config.enableStats = true then
          (if err = false ∧ c.effTtl ttl / 1000 ≠ 0 then entries.length else 0) else 0) := by
  cases err with
  | true => simp [RedisCache.mset]
  | false =>
    by_cases hsec : c.effTtl ttl / 1000 = 0
    · simp [RedisCache.mset, hsec]
    · by_cases hst : c.config.enableStats = true
      · simp [RedisCache.mset, hsec, hst]
      · simp [RedisCache.mset, hsec, hst]

theorem RedisCache.clear_hmrs (c : RedisCache) :
    c.clear.stats.hits = c.stats.hits ∧
    c.clear.stats.misses = c.stats.misses ∧
    c.clear.stats.sets = c.stats.sets ∧
    c.clear.stats.hitRate = c.stats.hitRate := by
  unfold RedisCache.clear
  split <;> exact ⟨rfl, rfl, rfl, rfl⟩

theorem RedisCache.getStats_snd_hmrs (c : RedisCache) (now : Nat) (err : Bool) :
    (c.getStats now err).2.stats.hits = c.stats.hits ∧
    (c.getStats now err).2.stats.misses = c.stats.misses ∧
    (c.getStats now err).2.stats.sets = c.stats.sets ∧
    (c.getStats now err).2.stats.hitRate = c.stats.hitRate := by
  simp only [RedisCache.getStats, RedisCache.updateSize]
  split
  · split <;> exact ⟨rfl, rfl, rfl, rfl⟩
  · exact ⟨rfl, rfl, rfl, rfl⟩

theorem applyOp_stats (c : RedisCache) (op : CacheOp)
    (h : c.config.enableStats = true) :
    (applyOp c op).stats.hits = c.stats.hits + opHits c op ∧
    (applyOp c op).stats.misses = c.stats.misses + opMisses c op ∧
    (applyOp c op).stats.sets = c.stats.sets + opSets c op := by
  cases op with
  | opGet now err key =>
    obtain ⟨hm1, hm2, hm3⟩ := c.recordMiss_stats h
    obtain ⟨hh1, hh2, hh3⟩ := c.recordHit_stats h
    rcases c.get_cases now err key with ⟨-, heq⟩ | ⟨s, -, -, -, heq⟩ <;>
      simp [applyOp, opHits, opMisses, opSets, heq, hm1, hm2, hm3, hh1, hh2, hh3]
  | opSet now err key v ttl =>
    obtain ⟨h1, h2, -⟩ := c.set_hmr now err key v ttl
    have h3 := c.set_sets now err key v ttl
    rw [h] at h3
    simp only [if_true] at h3
    exact ⟨by simp [applyOp, opHits, h1], by simp [applyOp, opMisses, h2],
      by simp [applyOp, opSets, h3]⟩
  | opDelete now err key =>
    obtain ⟨h1, h2, h3, -⟩ := c.delete_hmrs now err key
    exact ⟨by simp [applyOp, opHits, h1], by simp [applyOp, opMisses, h2],
      by simp [applyOp, opSets, h3]⟩
  | opHas _ _ _ => simp [applyOp, opHits, opMisses, opSets]
  | opMget now err keys =>
    have h1 := c.mget_snd now err keys
    simp [applyOp, opHits, opMisses, opSets, h1]
  | opMset now err entries ttl =>
    obtain ⟨h1, h2, -⟩ := c.mset_hmr now err entries ttl
    have h3 := c.mset_sets now err entries ttl
    rw [h] at h3
    simp only [if_true] at h3
    exact ⟨by simp [applyOp, opHits, h1], by simp [applyOp, opMisses, h2],
      by simp [applyOp, opSets, h3]⟩
  | opClear =>
    obtain ⟨h1, h2, h3, -⟩ := c.clear_hmrs
    exact ⟨by simp [applyOp, opHits, h1], by simp [applyOp, opMisses, h2],
      by simp [applyOp, opSets, h3]⟩
  | opGetStats now err =>
    obtain ⟨h1, h2, h3, -⟩ := c.getStats_snd_hmrs now err
    exact ⟨by simp [applyOp, opHits, h1], by simp [applyOp, opMisses, h2],
      by simp [applyOp, opSets, h3]⟩

theorem runOps_stats (ops : List CacheOp) (c : RedisCache)
    (h : c.config.enableStats = true) :
    (runOps c ops).stats.hits = c.stats.hits + traceCount opHits c ops ∧
    (runOps c ops).stats.misses = c.stats.misses + traceCount opMisses c ops ∧
    (runOps c ops).stats.sets = c.stats.sets + traceCount opSets c ops := by
  induction ops generalizing c with
  | nil => simp [runOps, traceCount]
  | cons op ops ih =>
    have hcfg : (applyOp c op).config.enableStats = true := by
      rw [applyOp_config]; exact h
    obtain ⟨ih1, ih2, ih3⟩ := ih (applyOp c op) hcfg
    obtain ⟨s1, s2, s3⟩ := applyOp_stats c op h
    have hrun : runOps c (op :: ops) = runOps (applyOp c op) ops := rfl
    refine ⟨?_, ?_, ?_⟩
    · have ht : traceCount opHits c (op :: ops)
          = opHits c op + traceCount opHits (applyOp c op) ops := rfl
      rw [hrun, ih1, s1, ht]; omega
    · have ht : traceCount opMisses c (op :: ops)
          = opMisses c op + traceCount opMisses (applyOp c op) ops := rfl
      rw [hrun, ih2, s2, ht]; omega
    · have ht : traceCount opSets c (op :: ops)
          = opSets c op + traceCount opSets (applyOp c op) ops := rfl
      rw [hrun, ih3, s3, ht]; omega

/-- The spec's stats invariant: the recorded hit rate equals
`hits / (hits + misses)` when `hits + misses > 0`, and `0` otherwise. -/
def statsInvariant (c : RedisCache) : Prop :=
  c.stats.hitRate = if 0 < c.stats.hits + c.stats.misses
    then (c.stats.hits : ℚ) / ((c.stats.hits + c.stats.misses : Nat) : ℚ)
    else 0

theorem statsInvariant_of_eq {c c' : RedisCache} (hinv : statsInvariant c)
    (h1 : c'.stats.hits = c.stats.hits) (h2 : c'.stats.misses = c.stats.misses)
    (h3 : c'.stats.hitRate = c.stats.hitRate) : statsInvariant c' := by
  unfold statsInvariant at *
  rw [h1, h2, h3, hinv]

theorem statsInvariant_recordMiss (c : RedisCache) (hinv : statsInvariant c) :
    statsInvariant c.recordMiss := by
  unfold RedisCache.recordMiss
  split
  · rfl
  · exact hinv

theorem statsInvariant_recordHit (c : RedisCache) (hinv : statsInvariant c) :
    statsInvariant c.recordHit := by
  unfold RedisCache.recordHit
  split
  · rfl
  · exact hinv

theorem applyOp_statsInvariant (c : RedisCache) (op : CacheOp)
    (hinv : statsInvariant c) : statsInvariant (applyOp c op) := by
  cases op with
  | opGet now err key =>
    show statsInvariant (c.get now err key).2
    rcases c.get_cases now err key with ⟨-, heq⟩ | ⟨s, -, -, -, heq⟩
    · rw [heq]; exact statsInvariant_recordMiss c hinv
    · rw [heq]; exact statsInvariant_recordHit c hinv
  | opSet now err key v ttl =>
    obtain ⟨h1, h2, h3⟩ := c.set_hmr now err key v ttl
    exact statsInvariant_of_eq hinv h1 h2 h3
  | opDelete now err key =>
    obtain ⟨h1, h2, -, h3⟩ := c.delete_hmrs now err key
    exact statsInvariant_of_eq hinv h1 h2 h3
  | opHas _ _ _ => exact hinv
  | opMget now err keys =>
    show statsInvariant (c.mget now err keys).2
    rw [c.mget_snd]
    exact hinv
  | opMset now err entries ttl =>
    obtain ⟨h1, h2, h3⟩ := c.mset_hmr now err entries ttl
    exact statsInvariant_of_eq hinv h1 h2 h3
  | opClear =>
    obtain ⟨h1, h2, -, h3⟩ := c.clear_hmrs
    exact statsInvariant_of_eq hinv h1 h2 h3
  | opGetStats now err =>
    obtain ⟨h1, h2, -, h3⟩ := c.getStats_snd_hmrs now err
    exact statsInvariant_of_eq hinv h1 h2 h3

theorem runOps_statsInvariant (ops : List CacheOp) (c : RedisCache)
    (hinv : statsInvariant c) : statsInvariant (runOps c ops) := by
  induction ops generalizing c with
  | nil => exact hinv
  | cons op ops ih => exact ih (applyOp c op) (applyOp_statsInvariant c op hinv)

theorem statsInvariant_mkRedisCache (cfg : CacheConfig) (st : RedisStore) :
    statsInvariant (mkRedisCache cfg st) := by
  unfold statsInvariant mkRedisCache
  norm_num

/-- C7: starting from a fresh backend with stats enabled, after any
sequence of backend calls the counters read exactly the number of hit
events, miss events and successful stored writes of the trace, and the
recorded hit rate equals `hits / (hits + misses)` when `hits + misses > 0`
and `0` otherwise. -/
theorem claim_C7 (cfg : CacheConfig) (st : RedisStore) (ops : List CacheOp)
    (h : cfg.enableStats = true) :
    (runOps (mkRedisCache cfg st) ops).stats.hits
      = traceCount opHits (mkRedisCache cfg st) ops ∧
    (runOps (mkRedisCache cfg st) ops).stats.misses
      = traceCount opMisses (mkRedisCache cfg st) ops ∧
    (runOps (mkRedisCache cfg st) ops).stats.sets
      = traceCount opSets (mkRedisCache cfg st) ops ∧
    (runOps (mkRedisCache cfg st) ops).stats.hitRate
      = (if 0 < (runOps (mkRedisCache cfg st) ops).stats.hits
              + (runOps (mkRedisCache cfg st) ops).stats.misses
         then ((runOps (mkRedisCache cfg st) ops).stats.hits : ℚ)
            / (((runOps (mkRedisCache cfg st) ops).stats.hits
                + (runOps (mkRedisCache cfg st) ops).stats.misses : Nat) : ℚ)
         else 0) := by
  obtain ⟨h1, h2, h3⟩ := runOps_stats ops (mkRedisCache cfg st) h
  have hinv := runOps_statsInvariant ops (mkRedisCache cfg st)
    (statsInvariant_mkRedisCache cfg st)
  refine ⟨?_, ?_, ?_, hinv⟩
  · rw [h1, show (mkRedisCache cfg st).stats.hits = 0 from rfl, Nat.zero_add]
  · rw [h2, show (mkRedisCache cfg st).stats.misses = 0 from rfl, Nat.zero_add]
  · rw [h3, show (mkRedisCache cfg st).stats.sets = 0 from rfl, Nat.zero_add]

/-- Witness for C7 on a concrete three-call trace. -/
theorem claim_C7_witness :
    (runOps (mkRedisCache (mkConfig none none none none) ⟨[]⟩)
        [CacheOp.opSet 0 false "k" (JVal.jstr "x") none,
         CacheOp.opGet 10 false "k", CacheOp.opGet 10 false "zzz"]).stats.hits
      = traceCount opHits (mkRedisCache (mkConfig none none none none) ⟨[]⟩)
        [CacheOp.opSet 0 false "k" (JVal.jstr "x") none,
         CacheOp.opGet 10 false "k", CacheOp.opGet 10 false "zzz"] ∧
    (runOps (mkRedisCache (mkConfig none none none none) ⟨[]⟩)
        [CacheOp.opSet 0 false "k" (JVal.jstr "x") none,
         CacheOp.opGet 10 false "k", CacheOp.opGet 10 false "zzz"]).stats.misses
      = traceCount opMisses (mkRedisCache (mkConfig none none none none) ⟨[]⟩)
        [CacheOp.opSet 0 false "k" (JVal.jstr "x") none,
         CacheOp.opGet 10 false "k", CacheOp.opGet 10 false "zzz"] ∧
    (runOps (mkRedisCache (mkConfig none none none none) ⟨[]⟩)
        [CacheOp.opSet 0 false "k" (JVal.jstr "x") none,
         CacheOp.opGet 10 false "k", CacheOp.opGet 10 false "zzz"]).stats.sets
      = traceCount opSets (mkRedisCache (mkConfig none none none none) ⟨[]⟩)
        [CacheOp.opSet 0 false "k" (JVal.jstr "x") none,
         CacheOp.opGet 10 false "k", CacheOp.opGet 10 false "zzz"] ∧
    (runOps (mkRedisCache (mkConfig none none none none) ⟨[]⟩)
        [CacheOp.opSet 0 false "k" (JVal.jstr "x") none,
         CacheOp.opGet 10 false "k", CacheOp.opGet 10 false "zzz"]).stats.hitRate
      = (if 0 < (runOps (mkRedisCache (mkConfig none none none none) ⟨[]⟩)
              [CacheOp.opSet 0 false "k" (JVal.jstr "x") none,
               CacheOp.opGet 10 false "k", CacheOp.opGet 10 false "zzz"]).stats.hits
            + (runOps (mkRedisCache (mkConfig none none none none) ⟨[]⟩)
              [CacheOp.opSet 0 false "k" (JVal.jstr "x") none,
               CacheOp.opGet 10 false "k", CacheOp.opGet 10 false "zzz"]).stats.misses
         then ((runOps (mkRedisCache (mkConfig none none none none) ⟨[]⟩)
              [CacheOp.opSet 0 false "k" (JVal.jstr "x") none,
               CacheOp.opGet 10 false "k", CacheOp.opGet 10 false "zzz"]).stats.hits : ℚ)
            / (((runOps (mkRedisCache (mkConfig none none none none) ⟨[]⟩)
              [CacheOp.opSet 0 false "k" (JVal.jstr "x") none,
               CacheOp.opGet 10 false "k", CacheOp.opGet 10 false "zzz"]).stats.hits
                + (runOps (mkRedisCache (mkConfig none none none none) ⟨[]⟩)
              [CacheOp.opSet 0 false "k" (JVal.jstr "x") none,
               CacheOp.opGet 10 false "k", CacheOp.opGet 10 false "zzz"]).stats.misses
                : Nat) : ℚ)
         else 0) :=
  claim_C7 (mkConfig none none none none) ⟨[]⟩
    [CacheOp.opSet 0 false "k" (JVal.jstr "x") none,
     CacheOp.opGet 10 false "k", CacheOp.opGet 10 false "zzz"] (by decide)

/-! ## Claim C9: LRU eviction in the in-process backend

The `MemoryCache` implementation is not among the provided sources (only
the README and the caching guide mention it), so the in-process backend is
modelled from the specification, §4.2. -/

/-- Modelled from the spec: the in-process backend (`MemoryCache`), whose
implementation file is missing from the sources.  Spec §4.2: a bounded
structure with an explicit recency order; here `entries` is kept in
recency order, most recently used first, with per-entry absolute expiry. -/
structure MemoryCache where
  maxSize : Nat
  ttl : Nat
  entries : List (String × JVal × Nat)
deriving DecidableEq, Repr

/-- Keys of the in-process backend in recency order. -/
def memKeys (c : MemoryCache) : List String := c.entries.map (·.1)

/-- Modelled from the spec (§4.2 `get`): absent or expired is a miss and an
expired entry is evicted; otherwise the entry is marked most recently used
and its value returned. -/
def memGet (c : MemoryCache) (now : Nat) (key : String) :
    Option JVal × MemoryCache :=
  match c.entries.find? (fun e => e.1 == key) with
  | none => (none, c)
  | some (_, v, exp) =>
    if now < exp then
      (some v,
        { c with entries := (key, v, exp) :: c.entries.filter (fun e => e.1 != key) })
    else
      (none, { c with entries := c.entries.filter (fun e => e.1 != key) })

/-- Modelled from the spec (§4.2 `set`): inserting a new key when the cache
is full first evicts the single least-recently-used entry — the last in
recency order; the written entry becomes most recently used. -/
def memSet (c : MemoryCache) (now : Nat) (key : String) (v : JVal) : MemoryCache :=
  let isNew := (c.entries.find? (fun e => e.1 == key)).isNone
  let base := c.entries.filter (fun e => e.1 != key)
  let trimmed :=
    if isNew && c.maxSize != 0 && decide (c.maxSize ≤ c.entries.length)
    then base.dropLast else base
  { c with entries := (key, v, now + c.ttl) :: trimmed }

theorem mem_find?_eq_none {c : MemoryCache} {key : String}
    (hfresh : key ∉ memKeys c) :
    c.entries.find? (fun e => e.1 == key) = none := by
  rw [List.find?_eq_none]
  intro e he
  simp only [beq_iff_eq]
  intro h
  exact hfresh (h ▸ List.mem_map_of_mem (·.1) he)

theorem mem_filter_eq_self {c : MemoryCache} {key : String}
    (hfresh : key ∉ memKeys c) :
    c.entries.filter (fun e => e.1 != key) = c.entries := by
  apply List.filter_eq_self.mpr
  intro e he
  simp only [bne_iff_ne, ne_eq]
  intro h
  exact hfresh (h ▸ List.mem_map_of_mem (·.1) he)

theorem memSet_fresh (c : MemoryCache) (now : Nat) (key : String) (v : JVal)
    (hfresh : key ∉ memKeys c) (hroom : c.entries.length < c.maxSize) :
    (memSet c now key v).entries = (key, v, now + c.ttl) :: c.entries := by
  unfold memSet
  simp [mem_find?_eq_none hfresh, mem_filter_eq_self hfresh, Nat.not_le.mpr hroom]

theorem memSet_evict (c : MemoryCache) (now : Nat) (key : String) (v : JVal)
    (hfresh : key ∉ memKeys c) (hfull : c.maxSize ≤ c.entries.length)
    (hpos : c.maxSize ≠ 0) :
    (memSet c now key v).entries
      = (key, v, now + c.ttl) :: c.entries.dropLast := by
  unfold memSet
  simp [mem_find?_eq_none hfresh, mem_filter_eq_self hfresh, hfull, hpos]

theorem memFill_entries (vf : String → JVal) (now : Nat) :
    ∀ (ks : List String) (c : MemoryCache), ks.Nodup →
      (∀ k ∈ ks, k ∉ memKeys c) →
      c.entries.length + ks.length ≤ c.maxSize →
      ((ks.foldl (fun a k => memSet a now k (vf k)) c).entries
          = (ks.reverse.map (fun k => (k, vf k, now + c.ttl))) ++ c.entries ∧
        (ks.foldl (fun a k => memSet a now k (vf k)) c).maxSize = c.maxSize ∧
        (ks.foldl (fun a k => memSet a now k (vf k)) c).ttl = c.ttl) := by
  intro ks
  induction ks with
  | nil => intro c _ _ _; simp
  | cons k ks ih =>
    intro c hnodup hfresh hlen
    have hkfresh : k ∉ memKeys c := hfresh k (List.mem_cons_self k ks)
    have hroom : c.entries.length < c.maxSize := by
      simp only [List.length_cons] at hlen
      omega
    have hstep := memSet_fresh c now k (vf k) hkfresh hroom
    have hkeys : memKeys (memSet c now k (vf k)) = k :: memKeys c := by
      unfold memKeys
      rw [hstep, List.map_cons]
    obtain ⟨ih1, ih2, ih3⟩ := ih (memSet c now k (vf k))
      (List.nodup_cons.mp hnodup).2
      (by
        intro k2 hk2
        rw [hkeys]
        simp only [List.mem_cons, not_or]
        exact ⟨fun he => (List.nodup_cons.mp hnodup).1 (he ▸ hk2),
          hfresh k2 (List.mem_cons_of_mem k hk2)⟩)
      (by
        have hms : (memSet c now k (vf k)).maxSize = c.maxSize := rfl
        rw [hstep, hms]
        simp only [List.length_cons]
        simp only [List.length_cons] at hlen
        omega)
    have hfold : (k :: ks).foldl (fun a k => memSet a now k (vf k)) c
        = ks.foldl (fun a k => memSet a now k (vf k)) (memSet c now k (vf k)) := rfl
    have htl : (memSet c now k (vf k)).ttl = c.ttl := rfl
    have hms : (memSet c now k (vf k)).maxSize = c.maxSize := rfl
    rw [hfold]
    refine ⟨?_, by rw [ih2, hms], by rw [ih3, htl]⟩
    rw [ih1, htl, hstep]
    simp [List.reverse_cons, List.map_append]

theorem map_fst_triple (l : List String) (vf : String → JVal) (e : Nat) :
    (l.map (fun k => (k, vf k, e))).map (fun x : String × JVal × Nat => x.1) = l := by
  induction l with
  | nil => rfl
  | cons a l ih => simp only [List.map_cons, ih]

/-- C9 (the in-process backend is modelled from spec §4.2): filling an
empty bounded cache with `maxSize` distinct keys `k0, k1, …` and then
inserting one more fresh key evicts exactly the least-recently-used entry:
without an intervening read that is `k0`, the first key inserted; after a
`get` of `k0` (which returns its value and marks it most recently used),
the overflowing insertion evicts `k1` instead and `k0` survives. -/
theorem claim_C9 (maxSize ttl now : Nat) (k0 k1 : String) (kt2 : List String)
    (knew : String) (vf : String → JVal) (vnew : JVal)
    (hnodup : (k0 :: k1 :: kt2).Nodup)
    (hfreshnew : knew ∉ k0 :: k1 :: kt2)
    (hlen : (k0 :: k1 :: kt2).length = maxSize)
    (httl : 0 < ttl) :
    memKeys (memSet ((k0 :: k1 :: kt2).foldl (fun a k => memSet a now k (vf k))
        ⟨maxSize, ttl, []⟩) now knew vnew) = knew :: (k1 :: kt2).reverse ∧
    (memGet ((k0 :: k1 :: kt2).foldl (fun a k => memSet a now k (vf k))
        ⟨maxSize, ttl, []⟩) now k0).1 = some (vf k0) ∧
    memKeys (memSet (memGet ((k0 :: k1 :: kt2).foldl (fun a k => memSet a now k (vf k))
        ⟨maxSize, ttl, []⟩) now k0).2 now knew vnew) = knew :: k0 :: kt2.reverse := by
  obtain ⟨ffill, fm, ft⟩ := memFill_entries vf now (k0 :: k1 :: kt2)
    ⟨maxSize, ttl, []⟩ hnodup (by intro k _; simp [memKeys])
    (by dsimp only; simp only [List.length_cons, List.length_nil] at hlen ⊢; omega)
  set F := (k0 :: k1 :: kt2).foldl (fun a k => memSet a now k (vf k))
    ⟨maxSize, ttl, []⟩ with hF
  have hk0nmem : k0 ∉ k1 :: kt2 := (List.nodup_cons.mp hnodup).1
  have hlt : now < now + ttl := by omega
  have hentries : F.entries
      = (k1 :: kt2).reverse.map (fun k => (k, vf k, now + ttl))
        ++ [(k0, vf k0, now + ttl)] := by
    rw [ffill]
    simp [List.reverse_cons, List.map_append]
  have hkeysF : memKeys F = (k0 :: k1 :: kt2).reverse := by
    simp only [memKeys, hentries, List.map_append, map_fst_triple, List.map_cons,
      List.map_nil, List.reverse_cons]
  have hknewF : knew ∉ memKeys F := by
    rw [hkeysF, List.mem_reverse]
    exact hfreshnew
  have hlenF : F.entries.length = maxSize := by
    rw [hentries]
    simp only [List.length_append, List.length_map, List.length_reverse,
      List.length_cons, List.length_nil]
    simp only [List.length_cons] at hlen
    omega
  have hmaxpos : maxSize ≠ 0 := by
    simp only [List.length_cons] at hlen
    omega
  have hmF : F.maxSize = maxSize := fm
  have htF : F.ttl = ttl := ft
  have hfind1 : ((k1 :: kt2).reverse.map
      (fun k => (k, vf k, now + ttl))).find? (fun e => e.1 == k0) = none := by
    rw [List.find?_eq_none]
    rintro e he
    simp only [List.mem_map, List.mem_reverse] at he
    obtain ⟨k, hk, rfl⟩ := he
    simp only [beq_iff_eq]
    exact fun h => hk0nmem (h ▸ hk)
  have hfilter1 : ((k1 :: kt2).reverse.map
      (fun k => (k, vf k, now + ttl))).filter (fun e => e.1 != k0)
        = (k1 :: kt2).reverse.map (fun k => (k, vf k, now + ttl)) := by
    apply List.filter_eq_self.mpr
    rintro e he
    simp only [List.mem_map, List.mem_reverse] at he
    obtain ⟨k, hk, rfl⟩ := he
    simp only [bne_iff_ne, ne_eq]
    exact fun h => hk0nmem (h ▸ hk)
  have hget : memGet F now k0
      = (some (vf k0),
         { F with entries := (k0, vf k0, now + ttl)
             :: (k1 :: kt2).reverse.map (fun k => (k, vf k, now + ttl)) }) := by
    unfold memGet
    rw [hentries, List.find?_append, hfind1, Option.none_or,
      List.find?_cons_of_pos _ (by simp)]
    simp only [hlt, if_true]
    rw [List.filter_append, hfilter1]
    simp
  refine ⟨?_, ?_, ?_⟩
  · rw [memKeys, memSet_evict F now knew vnew hknewF
        (le_of_eq (show F.maxSize = F.entries.length by rw [hlenF, hmF]))
        (by rw [hmF]; exact hmaxpos),
      hentries, List.dropLast_concat, List.map_cons, map_fst_triple]
  · rw [hget]
  · rw [hget]
    set T : MemoryCache :=
      { F with entries := (k0, vf k0, now + ttl)
          :: (k1 :: kt2).reverse.map (fun k => (k, vf k, now + ttl)) } with hT
    have hTe : T.entries = (k0, vf k0, now + ttl)
        :: (k1 :: kt2).reverse.map (fun k => (k, vf k, now + ttl)) := rfl
    have hkeysT : memKeys T = k0 :: (k1 :: kt2).reverse := by
      simp only [memKeys, hTe, List.map_cons, map_fst_triple]
    have hknewT : knew ∉ memKeys T := by
      rw [hkeysT]
      intro h
      rcases List.mem_cons.mp h with h2 | h2
      · exact hfreshnew (by rw [h2]; exact List.mem_cons_self k0 (k1 :: kt2))
      · exact hfreshnew (List.mem_cons_of_mem k0 (List.mem_reverse.mp h2))
    have hlenT : T.entries.length = maxSize := by
      rw [hTe]
      simp only [List.length_cons, List.length_map, List.length_reverse]
      simp only [List.length_cons] at hlen
      omega
    rw [memKeys, memSet_evict T now knew vnew hknewT
        (le_of_eq (show T.maxSize = T.entries.length by rw [hlenT]; exact hmF))
        (show T.maxSize ≠ 0 from hmF ▸ hmaxpos), hTe]
    have hsplit : (k0, vf k0, now + ttl)
        :: (k1 :: kt2).reverse.map (fun k => (k, vf k, now + ttl))
        = ((k0, vf k0, now + ttl) :: kt2.reverse.map (fun k => (k, vf k, now + ttl)))
          ++ [(k1, vf k1, now + ttl)] := by
      simp [List.reverse_cons, List.map_append]
    rw [hsplit, List.dropLast_concat, List.map_cons, List.map_cons, map_fst_triple]

/-- Witness for C9 with `maxSize = 2`, keys `"a", "b"`, new key `"c"`. -/
theorem claim_C9_witness :
    memKeys (memSet ((["a", "b"] : List String).foldl
        (fun a k => memSet a 0 k ((fun _ => JVal.jnull) k)) ⟨2, 1, []⟩) 0 "c" JVal.jnull)
      = ["c", "b"] ∧
    (memGet ((["a", "b"] : List String).foldl
        (fun a k => memSet a 0 k ((fun _ => JVal.jnull) k)) ⟨2, 1, []⟩) 0 "a").1
      = some ((fun _ => JVal.jnull) "a") ∧
    memKeys (memSet (memGet ((["a", "b"] : List String).foldl
        (fun a k => memSet a 0 k ((fun _ => JVal.jnull) k)) ⟨2, 1, []⟩) 0 "a").2 0 "c"
        JVal.jnull) = ["c", "a"] :=
  claim_C9 2 1 0 "a" "b" [] "c" (fun _ => JVal.jnull) JVal.jnull
    (by decide) (by decide) (by decide) (by decide)
